import Mathlib

/-!
Verification of the TaskManagement repository: a shallow embedding of its
normalizer (`app/repository.py`), dependency resolver (`app/services.py`),
Gantt scene builder (`app/gantt_figure.py` and the legacy builder in
`TaskManagement.py`), and the Dash callbacks (`app/dash_app.py`), together
with theorems settling the specification claims.

Modelling conventions:
- pandas cell values are modelled by the inductive `Cell` (NaN, string,
  number, timestamp).  Numbers are rationals.
- timestamps are civil triples (year, month, day) plus a time-of-day in
  nanoseconds, matching pandas' nanosecond resolution; chart x-coordinates
  are nanoseconds since the epoch as integers.
- spreadsheet I/O (`read_excel` / `to_excel`) is treated as the identity on
  cell values; rendering of numeric cells to strings by `astype(str)` is
  abstracted by a simple injective printer (no claim depends on it).
-/

namespace TaskMgmt

/-! ### Comparator framework

pandas `sort_values([c1, c2, c3])` is a stable lexicographic sort.  We model
it with `List.mergeSort` over an `Ordering`-valued comparator.  `GoodCmp`
packages the two laws (`swap`-symmetry and transitivity of "not greater")
needed for the core `mergeSort` lemmas.
-/

structure GoodCmp {α : Type} (c : α → α → Ordering) : Prop where
  symm : ∀ a b, c b a = (c a b).swap
  le_trans : ∀ {a b d}, c a b ≠ .gt → c b d ≠ .gt → c a d ≠ .gt

theorem GoodCmp.refl {α : Type} {c : α → α → Ordering} (h : GoodCmp c) (a : α) :
    c a a = .eq := by
  have hs := h.symm a a
  cases hv : c a a with
  | lt => rw [hv] at hs; exact absurd hs (by decide)
  | eq => rfl
  | gt => rw [hv] at hs; exact absurd hs (by decide)

theorem GoodCmp.gt_iff_lt {α : Type} {c : α → α → Ordering} (h : GoodCmp c) {a b : α} :
    c a b = .gt ↔ c b a = .lt := by
  have hs := h.symm a b
  constructor
  · intro hv; rw [hv] at hs; exact hs
  · intro hv
    rw [hv] at hs
    cases hc : c a b with
    | lt => rw [hc] at hs; exact absurd hs (by decide)
    | eq => rw [hc] at hs; exact absurd hs (by decide)
    | gt => rfl

theorem GoodCmp.eq_symm {α : Type} {c : α → α → Ordering} (h : GoodCmp c) {a b : α}
    (hv : c a b = .eq) : c b a = .eq := by
  have hs := h.symm a b; rw [hv] at hs; exact hs

theorem GoodCmp.ne_gt_of_lt {α : Type} {c : α → α → Ordering} (_h : GoodCmp c) {a b : α}
    (hv : c a b = .lt) : c a b ≠ .gt := by rw [hv]; intro hh; cases hh

theorem GoodCmp.ne_gt_of_eq {α : Type} {c : α → α → Ordering} (_h : GoodCmp c) {a b : α}
    (hv : c a b = .eq) : c a b ≠ .gt := by rw [hv]; intro hh; cases hh

theorem GoodCmp.eq_of_le_ge {α : Type} {c : α → α → Ordering} (h : GoodCmp c) {a b : α}
    (h1 : c a b ≠ .gt) (h2 : c b a ≠ .gt) : c a b = .eq := by
  cases hv : c a b with
  | lt => exact absurd (h.gt_iff_lt.mpr hv) h2
  | eq => rfl
  | gt => exact absurd hv h1

theorem GoodCmp.lt_of_lt_of_le {α : Type} {c : α → α → Ordering} (h : GoodCmp c) {a b d : α}
    (h1 : c a b = .lt) (h2 : c b d ≠ .gt) : c a d = .lt := by
  have hne : c a d ≠ .gt := h.le_trans (h.ne_gt_of_lt h1) h2
  cases hv : c a d with
  | lt => rfl
  | eq =>
      have hda : c d a ≠ .gt := h.ne_gt_of_eq (h.eq_symm hv)
      have hba : c b a ≠ .gt := h.le_trans h2 hda
      exact absurd (h.gt_iff_lt.mpr h1) hba
  | gt => exact absurd hv hne

theorem GoodCmp.lt_of_le_of_lt {α : Type} {c : α → α → Ordering} (h : GoodCmp c) {a b d : α}
    (h1 : c a b ≠ .gt) (h2 : c b d = .lt) : c a d = .lt := by
  have hne : c a d ≠ .gt := h.le_trans h1 (h.ne_gt_of_lt h2)
  cases hv : c a d with
  | lt => rfl
  | eq =>
      have hda : c d a ≠ .gt := h.ne_gt_of_eq (h.eq_symm hv)
      have hdb : c d b ≠ .gt := h.le_trans hda h1
      exact absurd (h.gt_iff_lt.mpr h2) hdb
  | gt => exact absurd hv hne

theorem GoodCmp.lt_trans {α : Type} {c : α → α → Ordering} (h : GoodCmp c) {a b d : α}
    (h1 : c a b = .lt) (h2 : c b d = .lt) : c a d = .lt :=
  h.lt_of_lt_of_le h1 (h.ne_gt_of_lt h2)

theorem GoodCmp.eq_trans {α : Type} {c : α → α → Ordering} (h : GoodCmp c) {a b d : α}
    (h1 : c a b = .eq) (h2 : c b d = .eq) : c a d = .eq := by
  have hx : c a d ≠ .gt := h.le_trans (h.ne_gt_of_eq h1) (h.ne_gt_of_eq h2)
  have hy : c d a ≠ .gt :=
    h.le_trans (h.ne_gt_of_eq (h.eq_symm h2)) (h.ne_gt_of_eq (h.eq_symm h1))
  exact h.eq_of_le_ge hx hy

theorem GoodCmp.total {α : Type} {c : α → α → Ordering} (h : GoodCmp c) (a b : α) :
    c a b ≠ .gt ∨ c b a ≠ .gt := by
  cases hv : c a b with
  | lt => exact Or.inl (by decide)
  | eq => exact Or.inl (by decide)
  | gt => exact Or.inr (by rw [h.gt_iff_lt.mp hv]; decide)

theorem Ordering.then_swap (a b : Ordering) : (a.then b).swap = a.swap.then b.swap := by
  cases a <;> cases b <;> rfl

theorem Ordering.then_ne_gt {a b : Ordering} :
    a.then b ≠ .gt ↔ a = .lt ∨ (a = .eq ∧ b ≠ .gt) := by
  cases a <;> cases b <;> simp [Ordering.then]

theorem GoodCmp.thenComp {α : Type} {c1 c2 : α → α → Ordering}
    (h1 : GoodCmp c1) (h2 : GoodCmp c2) :
    GoodCmp (fun a b => (c1 a b).then (c2 a b)) := by
  constructor
  · intro a b
    simp only [h1.symm a b, h2.symm a b, Ordering.then_swap]
  · intro a b d hab hbd
    rw [Ordering.then_ne_gt] at hab hbd
    rw [Ordering.then_ne_gt]
    rcases hab with hab | ⟨hab, hab2⟩
    · rcases hbd with hbd | ⟨hbd, _⟩
      · exact Or.inl (h1.lt_trans hab hbd)
      · exact Or.inl (h1.lt_of_lt_of_le hab (h1.ne_gt_of_eq hbd))
    · rcases hbd with hbd | ⟨hbd, hbd2⟩
      · exact Or.inl (h1.lt_of_le_of_lt (h1.ne_gt_of_eq hab) hbd)
      · exact Or.inr ⟨h1.eq_trans hab hbd, h2.le_trans hab2 hbd2⟩

theorem GoodCmp.comap {α β : Type} {c : β → β → Ordering} (h : GoodCmp c) (f : α → β) :
    GoodCmp (fun a b => c (f a) (f b)) := by
  constructor
  · intro a b; exact h.symm (f a) (f b)
  · intro a b d hab hbd; exact h.le_trans hab hbd

/-- locmp is the comparator induced by a linear order (used for numbers,
characters, and dates inside the sort key). -/
def locmp {α : Type} [LinearOrder α] (a b : α) : Ordering :=
  if a < b then .lt else if b < a then .gt else .eq

theorem locmp_ne_gt {α : Type} [LinearOrder α] {a b : α} :
    locmp a b ≠ .gt ↔ a ≤ b := by
  unfold locmp
  split_ifs with h1 h2
  · simp [le_of_lt h1]
  · simp [not_le.mpr h2]
  · simp [le_of_not_lt h2]

theorem goodLocmp {α : Type} [LinearOrder α] : GoodCmp (locmp (α := α)) := by
  constructor
  · intro a b
    unfold locmp
    rcases lt_trichotomy a b with h | h | h
    · simp [h, asymm h, Ordering.swap]
    · simp [h, lt_irrefl, Ordering.swap]
    · simp [h, asymm h, Ordering.swap]
  · intro a b d hab hbd
    rw [locmp_ne_gt] at hab hbd ⊢
    exact le_trans hab hbd

/-- Lexicographic comparison of lists, used for string cells. -/
def listCmp {α : Type} (c : α → α → Ordering) : List α → List α → Ordering
  | [], [] => .eq
  | [], _ :: _ => .lt
  | _ :: _, [] => .gt
  | a :: as, b :: bs => (c a b).then (listCmp c as bs)

theorem listCmp_symm {α : Type} {c : α → α → Ordering} (hc : GoodCmp c) :
    ∀ (as bs : List α), listCmp c bs as = (listCmp c as bs).swap := by
  intro as
  induction as with
  | nil => intro bs; cases bs <;> rfl
  | cons a as ih =>
      intro bs
      cases bs with
      | nil => rfl
      | cons b bs =>
          simp only [listCmp, hc.symm a b, ih bs, Ordering.then_swap]

theorem listCmp_le_trans {α : Type} {c : α → α → Ordering} (hc : GoodCmp c) :
    ∀ (as bs ds : List α),
      listCmp c as bs ≠ .gt → listCmp c bs ds ≠ .gt → listCmp c as ds ≠ .gt := by
  intro as
  induction as with
  | nil =>
      intro bs ds _ _
      cases ds <;> simp [listCmp]
  | cons a as ih =>
      intro bs ds hab hbd
      cases bs with
      | nil => simp [listCmp] at hab
      | cons b bs =>
          cases ds with
          | nil => simp [listCmp] at hbd
          | cons d ds =>
              simp only [listCmp, ne_eq, Ordering.then_ne_gt] at hab hbd ⊢
              rcases hab with hab | ⟨hab, hab2⟩
              · rcases hbd with hbd | ⟨hbd, _⟩
                · exact Or.inl (hc.lt_trans hab hbd)
                · exact Or.inl (hc.lt_of_lt_of_le hab (hc.ne_gt_of_eq hbd))
              · rcases hbd with hbd | ⟨hbd, hbd2⟩
                · exact Or.inl (hc.lt_of_le_of_lt (hc.ne_gt_of_eq hab) hbd)
                · exact Or.inr ⟨hc.eq_trans hab hbd, ih bs ds hab2 hbd2⟩

theorem goodListCmp {α : Type} {c : α → α → Ordering} (hc : GoodCmp c) :
    GoodCmp (listCmp c) :=
  ⟨listCmp_symm hc, fun {a b d} => listCmp_le_trans hc a b d⟩

/-! ### Python `str.strip`

`str.strip()` removes leading and trailing whitespace.  We model it on the
character list of the string. -/

def pyIsSpace (c : Char) : Bool :=
  c = ' ' || c = '\t' || c = '\n' || c = '\r' || c = '\x0b' || c = '\x0c'

def stripChars (l : List Char) : List Char :=
  ((l.dropWhile pyIsSpace).reverse.dropWhile pyIsSpace).reverse

def pyStrip (s : String) : String :=
  ⟨stripChars s.data⟩

theorem dropWhile_head_false {α : Type} (p : α → Bool) (l : List α) :
    ∀ x ∈ (l.dropWhile p).head?, p x = false := by
  induction l with
  | nil => intro x hx; simp [List.dropWhile] at hx
  | cons a as ih =>
      intro x hx
      by_cases h : p a
      · rw [List.dropWhile_cons_of_pos h] at hx
        exact ih x hx
      · rw [List.dropWhile_cons_of_neg h] at hx
        simp at hx
        rw [hx] at h
        simpa using h

theorem dropWhile_of_head_false {α : Type} (p : α → Bool) (l : List α)
    (h : ∀ x ∈ l.head?, p x = false) : l.dropWhile p = l := by
  cases l with
  | nil => rfl
  | cons a as =>
      have ha : p a = false := h a (by simp)
      rw [List.dropWhile_cons_of_neg (by simp [ha])]

theorem stripChars_prefix_drop (l : List Char) :
    ∃ t, l.dropWhile pyIsSpace = stripChars l ++ t := by
  rcases List.dropWhile_suffix (l := (l.dropWhile pyIsSpace).reverse) pyIsSpace with ⟨t, ht⟩
  refine ⟨t.reverse, ?_⟩
  have h2 := congrArg List.reverse ht
  rw [List.reverse_append, List.reverse_reverse] at h2
  exact h2.symm

theorem stripChars_head (l : List Char) :
    ∀ x ∈ (stripChars l).head?, pyIsSpace x = false := by
  intro x hx
  rcases stripChars_prefix_drop l with ⟨t, ht⟩
  cases hsc : stripChars l with
  | nil => rw [hsc] at hx; simp at hx
  | cons y ys =>
      rw [hsc] at hx
      simp at hx
      subst hx
      have hh : (l.dropWhile pyIsSpace).head? = some y := by
        rw [ht, hsc]; rfl
      exact dropWhile_head_false pyIsSpace l y (by rw [hh]; simp)

theorem stripChars_last (l : List Char) :
    ∀ x ∈ (stripChars l).getLast?, pyIsSpace x = false := by
  intro x hx
  unfold stripChars at hx
  rw [List.getLast?_reverse] at hx
  exact dropWhile_head_false pyIsSpace _ x hx

theorem stripChars_idem (l : List Char) : stripChars (stripChars l) = stripChars l := by
  have h1 : (stripChars l).dropWhile pyIsSpace = stripChars l :=
    dropWhile_of_head_false pyIsSpace _ (stripChars_head l)
  have h2 : ((stripChars l).reverse).dropWhile pyIsSpace = (stripChars l).reverse := by
    apply dropWhile_of_head_false
    intro x hx
    rw [List.head?_reverse] at hx
    exact stripChars_last l x hx
  show (((stripChars l).dropWhile pyIsSpace).reverse.dropWhile pyIsSpace).reverse = stripChars l
  rw [h1, h2, List.reverse_reverse]

theorem pyStrip_idem (s : String) : pyStrip (pyStrip s) = pyStrip s := by
  unfold pyStrip
  simp [stripChars_idem]

/-! ### Timestamps

pandas timestamps are modelled as a civil date (year, month, day) plus a
time-of-day in nanoseconds (pandas' resolution).  `pd.to_datetime` validates
the civil date when parsing strings, so parsed timestamps always satisfy
`tsValid`. -/

structure Timestamp where
  year : Nat
  month : Nat
  day : Nat
  todNs : Nat
deriving DecidableEq

def isLeapYear (y : Nat) : Bool :=
  y % 4 = 0 && (y % 100 ≠ 0 || y % 400 = 0)

def daysInMonth (y m : Nat) : Nat :=
  if m = 2 then (if isLeapYear y then 29 else 28)
  else if m = 4 || m = 6 || m = 9 || m = 11 then 30
  else 31

/-- tsValid delimits the civil dates representable as real pandas timestamps
(pandas bounds are 1677-09-21 .. 2262-04-11, well inside year 1000..9999). -/
def tsValid (t : Timestamp) : Bool :=
  decide (1000 ≤ t.year) && decide (t.year ≤ 9999) &&
  decide (1 ≤ t.month) && decide (t.month ≤ 12) &&
  decide (1 ≤ t.day) && decide (t.day ≤ daysInMonth t.year t.month)

/-- dayFloor is `.dt.normalize()` / day-precision truncation: the same civil
day at midnight. -/
def dayFloor (t : Timestamp) : Timestamp :=
  ⟨t.year, t.month, t.day, 0⟩

def nsPerDay : Int := 86400000000000

/-- daysFromCivil: day count from 1970-01-01 (Howard Hinnant's algorithm,
as used by pandas/numpy datetime arithmetic). -/
def daysFromCivil (y m d : Nat) : Int :=
  let yy : Int := (y : Int) - (if m ≤ 2 then 1 else 0)
  let era : Int := yy / 400
  let yoe : Int := yy - era * 400
  let mp : Int := (m : Int) + (if (m : Int) > 2 then -3 else 9)
  let doy : Int := (153 * mp + 2) / 5 + (d : Int) - 1
  let doe : Int := yoe * 365 + yoe / 4 - yoe / 100 + doy
  era * 146097 + doe - 719468

/-- toNs: nanoseconds since the epoch; the x-coordinate space of the chart. -/
def toNs (t : Timestamp) : Int :=
  daysFromCivil t.year t.month t.day * nsPerDay + (t.todNs : Int)

def tsCmp (a b : Timestamp) : Ordering :=
  (locmp a.year b.year).then
    ((locmp a.month b.month).then
      ((locmp a.day b.day).then (locmp a.todNs b.todNs)))

theorem goodTsCmp : GoodCmp tsCmp :=
  (goodLocmp.comap Timestamp.year).thenComp
    ((goodLocmp.comap Timestamp.month).thenComp
      ((goodLocmp.comap Timestamp.day).thenComp (goodLocmp.comap Timestamp.todNs)))

/-! ### Cells

A pandas cell is NaN, a string, a number, or a timestamp. -/

inductive Cell where
  | na
  | str (s : String)
  | num (q : ℚ)
  | date (t : Timestamp)
deriving DecidableEq

/-- cellRank orders cells of different runtime types for sorting; NaN sorts
last (pandas `na_position='last'`).  pandas raises on mixed incomparable
types; the model totalizes the order instead (no claim exercises such
tables). -/
def cellRank : Cell → Nat
  | .num _ => 0
  | .str _ => 1
  | .date _ => 2
  | .na => 3

def cellQ : Cell → ℚ
  | .num q => q
  | _ => 0

def cellChars : Cell → List Char
  | .str s => s.data
  | _ => []

def cellTs : Cell → Timestamp
  | .date t => t
  | _ => ⟨0, 0, 0, 0⟩

def cellCmp (a b : Cell) : Ordering :=
  (locmp (cellRank a) (cellRank b)).then
    ((locmp (cellQ a) (cellQ b)).then
      ((listCmp locmp (cellChars a) (cellChars b)).then (tsCmp (cellTs a) (cellTs b))))

theorem goodCellCmp : GoodCmp cellCmp :=
  (goodLocmp.comap cellRank).thenComp
    ((goodLocmp.comap cellQ).thenComp
      (((goodListCmp goodLocmp).comap cellChars).thenComp (goodTsCmp.comap cellTs)))

/-! ### Decimal digits: printing and parsing

Used to model `strftime("%Y-%m-%d")` and the lenient parsing done by
`pd.to_datetime` / `pd.to_numeric`. -/

def digitChar (d : Nat) : Char := Char.ofNat (48 + d)

def charDigit? (c : Char) : Option Nat :=
  if 48 ≤ c.toNat && c.toNat ≤ 57 then some (c.toNat - 48) else none

/-- natChars renders `n` in decimal, zero-padded on the left to `width`. -/
def natChars (width n : Nat) : List Char :=
  let ds := (Nat.digits 10 n).reverse.map digitChar
  List.replicate (width - ds.length) '0' ++ ds

def parseNatStep (acc : Option Nat) (c : Char) : Option Nat :=
  match acc, charDigit? c with
  | some n, some d => some (n * 10 + d)
  | _, _ => none

/-- parseNatChars parses a non-empty all-digit character list. -/
def parseNatChars (l : List Char) : Option Nat :=
  if l.isEmpty then none else l.foldl parseNatStep (some 0)

theorem charDigit?_digitChar : ∀ d, d < 10 → charDigit? (digitChar d) = some d := by
  decide

theorem digitChar_ne (d : Nat) (hlt : d < 10) (c : Char) (hc : charDigit? c = none) :
    digitChar d ≠ c := by
  intro he
  rw [← he, charDigit?_digitChar d hlt] at hc
  cases hc

theorem foldl_parse_digits (L : List Nat) (hL : ∀ d ∈ L, d < 10) (a : Nat) :
    List.foldl parseNatStep (some a) (L.map digitChar) =
      some (List.foldl (fun x d => x * 10 + d) a L) := by
  induction L generalizing a with
  | nil => rfl
  | cons d T ih =>
      have hd : d < 10 := hL d (by simp)
      simp only [List.map_cons, List.foldl_cons]
      rw [show parseNatStep (some a) (digitChar d) = some (a * 10 + d) by
        simp [parseNatStep, charDigit?_digitChar d hd]]
      exact ih (fun x hx => hL x (by simp [hx])) (a * 10 + d)

theorem foldl_horner (L : List Nat) (a : Nat) :
    List.foldl (fun x d => x * 10 + d) a L.reverse =
      a * 10 ^ L.length + Nat.ofDigits 10 L := by
  induction L generalizing a with
  | nil => simp
  | cons d T ih =>
      simp only [List.reverse_cons, List.foldl_append, List.foldl_cons, List.foldl_nil,
        List.length_cons, Nat.ofDigits_cons, ih a]
      ring

theorem foldl_parse_zeros (k : Nat) (rest : List Char) :
    List.foldl parseNatStep (some 0) (List.replicate k '0' ++ rest) =
      List.foldl parseNatStep (some 0) rest := by
  induction k with
  | zero => rfl
  | succ n ih =>
      rw [List.replicate_succ, List.cons_append, List.foldl_cons]
      rw [show parseNatStep (some 0) '0' = some 0 by decide]
      exact ih

theorem natChars_ne_nil (width n : Nat) (hw : 0 < width) : natChars width n ≠ [] := by
  intro h
  have hlen := congrArg List.length h
  unfold natChars at hlen
  simp only [List.length_append, List.length_replicate, List.length_map,
    List.length_reverse, List.length_nil] at hlen
  omega

theorem parseNatChars_natChars (width n : Nat) (hw : 0 < width) :
    parseNatChars (natChars width n) = some n := by
  have hne : (natChars width n).isEmpty = false := by
    cases hnc : natChars width n with
    | nil => exact absurd hnc (natChars_ne_nil width n hw)
    | cons a l => rfl
  unfold parseNatChars
  rw [hne, if_neg Bool.false_ne_true]
  show List.foldl parseNatStep (some 0) (natChars width n) = some n
  unfold natChars
  rw [foldl_parse_zeros]
  rw [foldl_parse_digits _ (fun d hd => Nat.digits_lt_base (by norm_num) (List.mem_reverse.mp hd))]
  rw [foldl_horner]
  simp [Nat.ofDigits_digits]

/-! ### Splitting on a separator character (used for date and number parsing) -/

def splitOnChar (sep : Char) : List Char → List (List Char)
  | [] => [[]]
  | c :: rest =>
      if c = sep then [] :: splitOnChar sep rest
      else
        match splitOnChar sep rest with
        | [] => [[c]]
        | h :: t => (c :: h) :: t

theorem splitOnChar_ne_nil (sep : Char) (l : List Char) : splitOnChar sep l ≠ [] := by
  induction l with
  | nil => simp [splitOnChar]
  | cons c rest ih =>
      by_cases h : c = sep
      · simp [splitOnChar, h]
      · simp only [splitOnChar, if_neg h]
        cases hs : splitOnChar sep rest with
        | nil => simp
        | cons a t => simp

theorem splitOnChar_cons_ne (sep c : Char) (rest : List Char) (hc : c ≠ sep) :
    splitOnChar sep (c :: rest) =
      match splitOnChar sep rest with
      | [] => [[c]]
      | h :: t => (c :: h) :: t := by
  simp only [splitOnChar, if_neg hc]

theorem splitOnChar_no_sep (sep : Char) (A : List Char) (h : sep ∉ A) :
    splitOnChar sep A = [A] := by
  induction A with
  | nil => rfl
  | cons c rest ih =>
      have hc : c ≠ sep := fun he => h (by simp [he])
      have hr : sep ∉ rest := fun hm => h (by simp [hm])
      rw [splitOnChar_cons_ne sep c rest hc, ih hr]

theorem splitOnChar_append (sep : Char) (A R : List Char) (h : sep ∉ A) :
    splitOnChar sep (A ++ sep :: R) = A :: splitOnChar sep R := by
  induction A with
  | nil => simp [splitOnChar]
  | cons c rest ih =>
      have hc : c ≠ sep := fun he => h (by simp [he])
      have hr : sep ∉ rest := fun hm => h (by simp [hm])
      rw [List.cons_append, splitOnChar_cons_ne sep c _ hc, ih hr]

/-! ### `strftime("%Y-%m-%d")` and `pd.to_datetime` on strings -/

def formatDateChars (t : Timestamp) : List Char :=
  natChars 4 t.year ++ '-' :: (natChars 2 t.month ++ '-' :: natChars 2 t.day)

/-- formatDate is `strftime("%Y-%m-%d")`: the civil date, zero-padded,
time-of-day discarded. -/
def formatDate (t : Timestamp) : String :=
  ⟨formatDateChars t⟩

/-- parseDateChars models `pd.to_datetime(s, errors="coerce")` on a
`YYYY-MM-DD` string: split on `-`, parse the three components, validate the
civil date (pandas rejects month 13 or February 30), coerce failures to NaT
(`none`).  Times of day and other pandas-accepted spellings are not needed by
any claim and parse to NaT in the model. -/
def parseYMD (ys ms ds : List Char) : Option Timestamp :=
  match parseNatChars ys, parseNatChars ms, parseNatChars ds with
  | some y, some m, some d =>
      if 1000 ≤ y ∧ y ≤ 9999 ∧ 1 ≤ m ∧ m ≤ 12 ∧ 1 ≤ d ∧ d ≤ daysInMonth y m
      then some ⟨y, m, d, 0⟩ else none
  | _, _, _ => none

def parseDateChars (l : List Char) : Option Timestamp :=
  match splitOnChar '-' l with
  | [ys, ms, ds] => parseYMD ys ms ds
  | _ => none

def parseDate (s : String) : Option Timestamp :=
  parseDateChars s.data

theorem natChars_no_dash (width n : Nat) : '-' ∉ natChars width n := by
  intro hmem
  unfold natChars at hmem
  rcases List.mem_append.mp hmem with hm | hm
  · have := List.eq_of_mem_replicate hm
    cases this
  · rcases List.mem_map.mp hm with ⟨d, hd, hdc⟩
    have hlt : d < 10 := Nat.digits_lt_base (by norm_num) (List.mem_reverse.mp hd)
    exact digitChar_ne d hlt '-' (by decide) hdc

theorem parseDateChars_three (l ys ms ds : List Char)
    (hsplit : splitOnChar '-' l = [ys, ms, ds]) :
    parseDateChars l = parseYMD ys ms ds := by
  unfold parseDateChars
  rw [hsplit]

theorem parseDateChars_format (t : Timestamp) (h : tsValid t = true) :
    parseDateChars (formatDateChars t) = some (dayFloor t) := by
  have hsplit : splitOnChar '-' (formatDateChars t) =
      [natChars 4 t.year, natChars 2 t.month, natChars 2 t.day] := by
    unfold formatDateChars
    rw [splitOnChar_append '-' _ _ (natChars_no_dash 4 t.year)]
    rw [splitOnChar_append '-' _ _ (natChars_no_dash 2 t.month)]
    rw [splitOnChar_no_sep '-' _ (natChars_no_dash 2 t.day)]
  rw [parseDateChars_three _ _ _ _ hsplit]
  have hred : parseYMD (natChars 4 t.year) (natChars 2 t.month) (natChars 2 t.day) =
      if 1000 ≤ t.year ∧ t.year ≤ 9999 ∧ 1 ≤ t.month ∧ t.month ≤ 12 ∧
          1 ≤ t.day ∧ t.day ≤ daysInMonth t.year t.month
      then some ⟨t.year, t.month, t.day, 0⟩ else none := by
    unfold parseYMD
    rw [parseNatChars_natChars 4 t.year (by norm_num)]
    rw [parseNatChars_natChars 2 t.month (by norm_num)]
    rw [parseNatChars_natChars 2 t.day (by norm_num)]
  rw [hred]
  simp only [tsValid, Bool.and_eq_true, decide_eq_true_eq] at h
  rw [if_pos ⟨h.1.1.1.1.1, h.1.1.1.1.2, h.1.1.1.2, h.1.1.2, h.1.2, h.2⟩]
  rfl

theorem parseDate_format (t : Timestamp) (h : tsValid t = true) :
    parseDate (formatDate t) = some (dayFloor t) :=
  parseDateChars_format t h

theorem parseYMD_valid (ys ms ds : List Char) (t : Timestamp)
    (h : parseYMD ys ms ds = some t) : tsValid t = true ∧ t.todNs = 0 := by
  unfold parseYMD at h
  rcases hy : parseNatChars ys with _ | y <;> rw [hy] at h
  · exact Option.noConfusion h
  · rcases hm : parseNatChars ms with _ | m <;> rw [hm] at h
    · exact Option.noConfusion h
    · rcases hd : parseNatChars ds with _ | d <;> rw [hd] at h
      · exact Option.noConfusion h
      · have h2 : (if 1000 ≤ y ∧ y ≤ 9999 ∧ 1 ≤ m ∧ m ≤ 12 ∧ 1 ≤ d ∧ d ≤ daysInMonth y m
            then some (⟨y, m, d, 0⟩ : Timestamp) else none) = some t := h
        by_cases hc : 1000 ≤ y ∧ y ≤ 9999 ∧ 1 ≤ m ∧ m ≤ 12 ∧ 1 ≤ d ∧ d ≤ daysInMonth y m
        · rw [if_pos hc] at h2
          cases h2
          refine ⟨?_, rfl⟩
          simp only [tsValid, Bool.and_eq_true, decide_eq_true_eq]
          exact ⟨⟨⟨⟨⟨hc.1, hc.2.1⟩, hc.2.2.1⟩, hc.2.2.2.1⟩, hc.2.2.2.2.1⟩, hc.2.2.2.2.2⟩
        · rw [if_neg hc] at h2
          exact Option.noConfusion h2

theorem parseDateChars_valid (l : List Char) (t : Timestamp)
    (h : parseDateChars l = some t) : tsValid t = true ∧ t.todNs = 0 := by
  unfold parseDateChars at h
  rcases hs : splitOnChar '-' l with _ | ⟨ys, t1⟩ <;> rw [hs] at h
  · exact Option.noConfusion h
  · rcases t1 with _ | ⟨ms, t2⟩
    · exact Option.noConfusion h
    · rcases t2 with _ | ⟨ds, t3⟩
      · exact Option.noConfusion h
      · rcases t3 with _ | ⟨x, t4⟩
        · exact parseYMD_valid ys ms ds t h
        · exact Option.noConfusion h

/-! ### `pd.to_numeric(errors="coerce")` on strings

Decimal forms `[+-]digits[.digits]` are parsed; anything else (including
exponent notation, which no claim exercises) coerces to NaN. -/

def digitsVal (l : List Char) : Option Nat :=
  l.foldl parseNatStep (some 0)

def allDigits (l : List Char) : Bool :=
  l.all (fun c => (charDigit? c).isSome)

def parseNumTail (sgn : Int) (rest : List Char) : Option ℚ :=
  match splitOnChar '.' rest with
  | [ip] =>
      if ip ≠ [] ∧ allDigits ip = true then
        (digitsVal ip).map (fun n => mkRat (sgn * n) 1)
      else none
  | [ip, fp] =>
      if (ip ≠ [] ∨ fp ≠ []) ∧ allDigits ip = true ∧ allDigits fp = true then
        match digitsVal ip, digitsVal fp with
        | some a, some b => some (mkRat (sgn * (a * 10 ^ fp.length + b)) (10 ^ fp.length))
        | _, _ => none
      else none
  | _ => none

def parseNumChars (l : List Char) : Option ℚ :=
  match l with
  | '+' :: r => parseNumTail 1 r
  | '-' :: r => parseNumTail (-1) r
  | r => parseNumTail 1 r

/-! ### Column-level coercions (`astype(str)`, `to_datetime`, `to_numeric`) -/

/-- cellStr is `astype(str)`: NaN prints as "nan"; the rendering of numeric
and datetime cells to strings is abstracted by a simple printer (no claim
depends on the exact spelling Python would produce). -/
def ratStr (q : ℚ) : String :=
  toString q.num ++ "/" ++ toString q.den

def tsStr (t : Timestamp) : String :=
  formatDate t

def cellStr : Cell → String
  | .na => "nan"
  | .str s => s
  | .num q => ratStr q
  | .date t => tsStr t

/-- toDatetime is `pd.to_datetime(x, errors="coerce")` on a single cell:
identity on timestamps, string parsing per `parseDate`, NaN to NaT.  Numeric
cells (nanosecond offsets in pandas) are coerced to NaT in the model; no
claim exercises them. -/
def toDatetime : Cell → Option Timestamp
  | .date t => some t
  | .str s => parseDate s
  | _ => none

/-- toNumeric is `pd.to_numeric(x, errors="coerce")` on a single cell. -/
def toNumeric : Cell → Option ℚ
  | .num q => some q
  | .str s => parseNumChars s.data
  | _ => none

/-- fillna with a string default. -/
def fillna (v : String) : Cell → Cell
  | .na => .str v
  | c => c

/-- clipQ is `Series.clip(0, 100)`. -/
def clipQ (q : ℚ) : ℚ :=
  min (max q 0) 100

/-! ### Status constants (`app/constants.py`) -/

def STATUS_TODO : String := "To Do"
def STATUS_INPROGRESS : String := "In progress"
def STATUS_REVIEW : String := "Review"
def STATUS_DONE : String := "Done"

def ALLOWED_STATUS : List String :=
  [STATUS_TODO, STATUS_INPROGRESS, STATUS_REVIEW, STATUS_DONE]

/-! ### Raw rows and the normalizer (`ExcelTaskRepository._normalize`)

A `RawRow` is one spreadsheet row keyed by the canonical columns of
`TaskSchema.REQUIRED` (Task Name, Task ID, Start Date, End Date, Progress,
Parent Task, Category, Status); `stop` stands for the End Date column. -/

structure RawRow where
  name : Cell
  id : Cell
  start : Cell
  stop : Cell
  progress : Cell
  parentId : Cell
  category : Cell
  status : Cell
deriving DecidableEq

/-- coerceId: `df[COL_ID].astype(str).str.strip()`. -/
def coerceId (c : Cell) : Cell :=
  .str (pyStrip (cellStr c))

/-- coerceParent: `df[COL_PARENT].fillna("").astype(str).str.strip()`. -/
def coerceParent (c : Cell) : Cell :=
  .str (pyStrip (cellStr (fillna "" c)))

/-- coerceCategory: `fillna("Uncategorized").astype(str).str.strip()`. -/
def coerceCategory (c : Cell) : Cell :=
  .str (pyStrip (cellStr (fillna "Uncategorized" c)))

/-- coerceDate: `pd.to_datetime(col, errors="coerce")` (NaT as `.na`). -/
def coerceDate (c : Cell) : Cell :=
  match toDatetime c with
  | some t => .date t
  | none => .na

/-- coerceProgress: `pd.to_numeric(col, errors="coerce").fillna(0).clip(0, 100)`. -/
def coerceProgress (c : Cell) : Cell :=
  .num (clipQ ((toNumeric c).getD 0))

/-- coerceStatus: `fillna(STATUS_TODO).astype(str).str.strip()`, then values
outside ALLOWED_STATUS replaced by STATUS_TODO. -/
def coerceStatus (c : Cell) : Cell :=
  let s := pyStrip (cellStr (fillna STATUS_TODO c))
  .str (if s ∈ ALLOWED_STATUS then s else STATUS_TODO)

def rowCoerce (r : RawRow) : RawRow :=
  { name := r.name
    id := coerceId r.id
    start := coerceDate r.start
    stop := coerceDate r.stop
    progress := coerceProgress r.progress
    parentId := coerceParent r.parentId
    category := coerceCategory r.category
    status := coerceStatus r.status }

/-- rowKeyCmp compares two rows by the `sort_values` key
(Start Date, Category, Task Name); NaN keys sort last via `cellCmp`. -/
def rowKeyCmp (a b : RawRow) : Ordering :=
  (cellCmp a.start b.start).then
    ((cellCmp a.category b.category).then (cellCmp a.name b.name))

theorem goodRowKeyCmp : GoodCmp rowKeyCmp :=
  (goodCellCmp.comap RawRow.start).thenComp
    ((goodCellCmp.comap RawRow.category).thenComp (goodCellCmp.comap RawRow.name))

def rowLe (a b : RawRow) : Bool :=
  decide (rowKeyCmp a b ≠ Ordering.gt)

theorem rowLe_trans (a b d : RawRow) (h1 : rowLe a b = true) (h2 : rowLe b d = true) :
    rowLe a d = true := by
  unfold rowLe at h1 h2 ⊢
  rw [decide_eq_true_eq] at h1 h2 ⊢
  exact goodRowKeyCmp.le_trans h1 h2

theorem rowLe_total (a b : RawRow) : (rowLe a b || rowLe b a) = true := by
  unfold rowLe
  rcases goodRowKeyCmp.total a b with h | h
  · rw [decide_eq_true_eq.mpr h]; rfl
  · rw [decide_eq_true_eq.mpr h]; simp

/-- normalize is `ExcelTaskRepository._normalize`: column coercions followed
by the stable lexicographic sort on (Start Date, Category, Task Name)
(`reset_index(drop=True)` has no observable effect on the row list). -/
def normalize (rows : List RawRow) : List RawRow :=
  (rows.map rowCoerce).mergeSort rowLe

/-! ### Saving (`ExcelTaskRepository.save`) and loading (`ExcelTaskRepository.load`)

`read_excel` / `to_excel` are treated as the identity on cell values.  On a
table with the canonical English columns, `load` is `_maybe_rename_jp_to_en`
(a no-op), the Status-column default (present), `_validate_columns` (passes),
then `_normalize`. -/

/-- saveDateCell: `pd.to_datetime(col, errors="coerce").dt.strftime("%Y-%m-%d")`;
NaT renders as NaN. -/
def saveDateCell (c : Cell) : Cell :=
  match toDatetime c with
  | some t => .str (formatDate t)
  | none => .na

/-- saveRow rewrites the two date columns; the final `df_out[REQUIRED]`
column selection keeps exactly the canonical columns a `RawRow` carries. -/
def saveRow (r : RawRow) : RawRow :=
  { r with start := saveDateCell r.start, stop := saveDateCell r.stop }

def saveTable (rows : List RawRow) : List RawRow :=
  rows.map saveRow

def loadTable (rows : List RawRow) : List RawRow :=
  normalize rows

/-- dayFloorRow truncates the date cells of a normalized row to day
precision, leaving every other column unchanged (the expected value of the
save/load round trip). -/
def dayFloorCell : Cell → Cell
  | .date t => .date (dayFloor t)
  | c => c

def dayFloorRow (r : RawRow) : RawRow :=
  { r with start := dayFloorCell r.start, stop := dayFloorCell r.stop }

/-! ### Idempotence of the column coercions -/

theorem clipQ_bounds (q : ℚ) : 0 ≤ clipQ q ∧ clipQ q ≤ 100 := by
  constructor
  · exact le_min (le_max_right q 0) (by norm_num)
  · exact min_le_right _ _

theorem clipQ_of_bounds (q : ℚ) (h0 : 0 ≤ q) (h1 : q ≤ 100) : clipQ q = q := by
  unfold clipQ
  rw [max_eq_left h0, min_eq_left h1]

theorem coerceId_idem (c : Cell) : coerceId (coerceId c) = coerceId c := by
  unfold coerceId
  simp [cellStr, pyStrip_idem]

theorem coerceParent_idem (c : Cell) : coerceParent (coerceParent c) = coerceParent c := by
  unfold coerceParent
  simp [fillna, cellStr, pyStrip_idem]

theorem coerceCategory_idem (c : Cell) : coerceCategory (coerceCategory c) = coerceCategory c := by
  unfold coerceCategory
  simp [fillna, cellStr, pyStrip_idem]

theorem coerceDate_idem (c : Cell) : coerceDate (coerceDate c) = coerceDate c := by
  unfold coerceDate
  cases h : toDatetime c with
  | none => rfl
  | some t => rfl

theorem coerceProgress_idem (c : Cell) : coerceProgress (coerceProgress c) = coerceProgress c := by
  unfold coerceProgress
  simp only [toNumeric, Option.getD_some]
  rw [clipQ_of_bounds _ (clipQ_bounds _).1 (clipQ_bounds _).2]

theorem pyStrip_status_consts :
    pyStrip STATUS_TODO = STATUS_TODO ∧ pyStrip STATUS_INPROGRESS = STATUS_INPROGRESS ∧
    pyStrip STATUS_REVIEW = STATUS_REVIEW ∧ pyStrip STATUS_DONE = STATUS_DONE := by
  refine ⟨?_, ?_, ?_, ?_⟩ <;> rfl

theorem coerceStatus_spec (c : Cell) :
    ∃ s, coerceStatus c = .str s ∧ s ∈ ALLOWED_STATUS ∧ pyStrip s = s := by
  by_cases h : pyStrip (cellStr (fillna STATUS_TODO c)) ∈ ALLOWED_STATUS
  · refine ⟨pyStrip (cellStr (fillna STATUS_TODO c)), ?_, h, pyStrip_idem _⟩
    simp only [coerceStatus]
    rw [if_pos h]
  · refine ⟨STATUS_TODO, ?_, by simp [ALLOWED_STATUS], rfl⟩
    simp only [coerceStatus]
    rw [if_neg h]

theorem coerceStatus_str_allowed (s : String) (hs : s ∈ ALLOWED_STATUS)
    (hstrip : pyStrip s = s) : coerceStatus (.str s) = .str s := by
  unfold coerceStatus
  simp only [fillna, cellStr]
  rw [hstrip, if_pos hs]

theorem coerceStatus_idem (c : Cell) : coerceStatus (coerceStatus c) = coerceStatus c := by
  rcases coerceStatus_spec c with ⟨s, heq, hmem, hstrip⟩
  rw [heq, coerceStatus_str_allowed s hmem hstrip]

theorem rowCoerce_idem (r : RawRow) : rowCoerce (rowCoerce r) = rowCoerce r := by
  unfold rowCoerce
  simp only [coerceId_idem, coerceParent_idem, coerceCategory_idem, coerceDate_idem,
    coerceProgress_idem, coerceStatus_idem]

theorem normalize_idem (rows : List RawRow) : normalize (normalize rows) = normalize rows := by
  unfold normalize
  have hfix : ∀ x ∈ (rows.map rowCoerce).mergeSort rowLe, rowCoerce x = x := by
    intro x hx
    have hx2 : x ∈ rows.map rowCoerce := ((List.mergeSort_perm _ rowLe).mem_iff).mp hx
    rcases List.mem_map.mp hx2 with ⟨y, _, hy⟩
    rw [← hy, rowCoerce_idem]
  rw [List.map_congr_left hfix]
  rw [show List.map (fun a : RawRow => a) ((rows.map rowCoerce).mergeSort rowLe) =
    (rows.map rowCoerce).mergeSort rowLe from List.map_id _]
  exact List.mergeSort_of_sorted (List.sorted_mergeSort rowLe_trans rowLe_total _)

/-! ### Typed task tables

A `Task` is one row of a normalized table, viewed with its column types:
string id / parent / category / status, optional timestamps, rational
progress.  The Task Name column is never coerced by `_normalize`, so it
stays an arbitrary cell. -/

structure Task where
  name : Cell
  id : String
  start : Option Timestamp
  stop : Option Timestamp
  progress : ℚ
  parentId : String
  category : String
  status : String
deriving DecidableEq

def taskIds (df : List Task) : List String :=
  df.map (fun t => t.id)

/-! ### DependencyService (`app/services.py`) -/

/-- lookupProgress models `df.set_index(COL_ID)[COL_PROGRESS].to_dict()`:
on duplicate ids the last occurrence wins. -/
def lookupProgress (df : List Task) (key : String) : Option ℚ :=
  (df.reverse.find? (fun t => t.id == key)).map (fun t => t.progress)

/-- blockedB is `DependencyService.add_blocked`'s per-row `blocked` closure:
empty parent never blocks; unresolved parent blocks; resolved parent blocks
iff its progress < 100. -/
def blockedB (df : List Task) (r : Task) : Bool :=
  if r.parentId = "" then false
  else
    match lookupProgress df r.parentId with
    | none => true
    | some p => decide (p < 100)

/-- addBlocked pairs every row with its derived Blocked flag
(`np.where(..., "BLOCKED", "OK")`; `true` stands for "BLOCKED"). -/
def addBlocked (df : List Task) : List (Task × Bool) :=
  df.map (fun r => (r, blockedB df r))

/-- iterDependencies is `DependencyService.iter_dependencies`: one candidate
edge (stripped parent, child id) per row, kept when the stripped parent is a
non-empty member of the table's id set. -/
def iterDependencies (df : List Task) : List (String × String) :=
  df.filterMap (fun r =>
    if pyStrip r.parentId ≠ "" ∧ pyStrip r.parentId ∈ taskIds df
    then some (pyStrip r.parentId, r.id) else none)

/-! ### GanttFigureBuilder (`app/gantt_figure.py`)

The scene is the list of plotly traces the builder adds to the figure, each
carrying its legend group, its `hide_if_any_hidden` metadata, its visibility,
and its data points (y = Task Name cell, x-coordinates in nanoseconds since
the epoch).  Weekend `vrect`s and the NOW line are layout shapes, not
traces, and are outside `fig.data` (the hiding pass never touches them). -/

inductive TraceKind where
  | baseBar
  | overlay
  | lock
  | depLine
  | depMarker
  | legendEntry
deriving DecidableEq

structure Datum where
  y : Cell
  x0 : Int
  x1 : Int
deriving DecidableEq

structure Trace where
  kind : TraceKind
  legendgroup : Option String
  hideIfAnyHidden : List String
  visible : Bool
  data : List Datum
deriving DecidableEq

structure Scene where
  traces : List Trace
  xrange : Option (Int × Int)
  height : Nat
deriving DecidableEq

def tsNs (o : Option Timestamp) : Int :=
  match o with
  | some t => toNs t
  | none => 0

/-- taskLegendgroup is `GanttFigureBuilder.task_legendgroup`. -/
def taskLegendgroup (t : Task) : String :=
  let st := pyStrip t.status
  if st = STATUS_REVIEW then "status:Review"
  else if st = STATUS_DONE then "status:Done"
  else "cat:" ++ pyStrip t.category

/-- chartTasks is the date filter of `build`:
`df.dropna(subset=[COL_START, COL_END])` after the (here idempotent)
`pd.to_datetime(..., errors="coerce")` pass. -/
def chartTasks (df : List Task) : List Task :=
  df.filter (fun t => t.start.isSome && t.stop.isSome)

def mkBarDatum (t : Task) : Datum :=
  ⟨t.name, tsNs t.start, tsNs t.stop⟩

/-- baseTraces: `px.timeline(df_normal, ..., color=COL_CATEGORY)` produces
one bar trace per category, relabelled with legendgroup `cat:<category>`. -/
def baseTraces (normal : List Task) : List Trace :=
  if normal.isEmpty then []
  else
    ((normal.map (fun t => t.category)).dedup).map (fun c =>
      { kind := .baseBar
        legendgroup := some ("cat:" ++ c)
        hideIfAnyHidden := []
        visible := true
        data := (normal.filter (fun t => t.category == c)).map mkBarDatum })

/-- reviewTraces / doneTraces: one gray bar trace with a fixed status
legendgroup, when the bucket is non-empty. -/
def reviewTraces (review : List Task) : List Trace :=
  if review.isEmpty then []
  else
    [{ kind := .baseBar
       legendgroup := some "status:Review"
       hideIfAnyHidden := []
       visible := true
       data := review.map mkBarDatum }]

def doneTraces (done : List Task) : List Trace :=
  if done.isEmpty then []
  else
    [{ kind := .baseBar
       legendgroup := some "status:Done"
       hideIfAnyHidden := []
       visible := true
       data := done.map mkBarDatum }]

/-- progressEndNs: `start + (end - start) * progress / 100` in nanoseconds
(the Timedelta-by-float product rounded down to whole nanoseconds). -/
def progressEndNs (t : Task) : Int :=
  tsNs t.start +
    ((tsNs t.stop - tsNs t.start) * t.progress.num).ediv (100 * (t.progress.den : Int))

def strLe (a b : String) : Bool :=
  decide (listCmp locmp a.data b.data ≠ Ordering.gt)

/-- overlayTrace is `add_progress_overlay`: skipped when the subset is
empty, otherwise one semi-transparent non-legend trace in the given group. -/
def overlayTrace (grp : String) (subset : List Task) : List Trace :=
  if subset.isEmpty then []
  else
    [{ kind := .overlay
       legendgroup := some grp
       hideIfAnyHidden := []
       visible := true
       data := subset.map (fun t => ⟨t.name, tsNs t.start, progressEndNs t⟩) }]

/-- overlayTraces: normal tasks grouped by category (`groupby` yields keys
in sorted order), then the Review and Done buckets. -/
def overlayTraces (normal review done : List Task) : List Trace :=
  (if normal.isEmpty then []
   else
     (((normal.map (fun t => t.category)).dedup).mergeSort strLe).flatMap (fun c =>
       overlayTrace ("cat:" ++ c) (normal.filter (fun t => t.category == c))))
  ++ overlayTrace "status:Review" review ++ overlayTrace "status:Done" done

/-- lockTraces: one 🔒 text trace per BLOCKED chart row, legend-linked to the
row's group and carrying the same group in its hide metadata. -/
def lockTraces (chartFlags : List (Task × Bool)) : List Trace :=
  (chartFlags.filter (fun p => p.2)).map (fun p =>
    { kind := .lock
      legendgroup := some (taskLegendgroup p.1)
      hideIfAnyHidden := [taskLegendgroup p.1]
      visible := true
      data := [⟨p.1.name, tsNs p.1.start, tsNs p.1.start⟩] })

/-- lookupTask models `df_chart.set_index(COL_ID).to_dict(orient="index")`:
last occurrence wins on duplicate ids. -/
def lookupTask (df : List Task) (key : String) : Option Task :=
  df.reverse.find? (fun t => t.id == key)

/-- depTraces: per dependency edge, a connector line plus an arrowhead
marker, both tagged `hide_if_any_hidden = [parent group, child group]` and
not legend-linked themselves. -/
def depTraces (chart : List Task) : List Trace :=
  (iterDependencies chart).flatMap (fun e =>
    match lookupTask chart e.1, lookupTask chart e.2 with
    | some parent, some child =>
        [{ kind := .depLine
           legendgroup := none
           hideIfAnyHidden := [taskLegendgroup parent, taskLegendgroup child]
           visible := true
           data := [⟨parent.name, tsNs parent.stop, tsNs parent.stop⟩,
                    ⟨child.name, tsNs child.start, tsNs child.start⟩] },
         { kind := .depMarker
           legendgroup := none
           hideIfAnyHidden := [taskLegendgroup parent, taskLegendgroup child]
           visible := true
           data := [⟨child.name, tsNs child.start, tsNs child.start⟩] }]
    | _, _ => [])

/-- legendEntryTraces: the two always-present Review / Done legend toggles
(dummy markers with `x=[None]`, hence no data points). -/
def legendEntryTraces : List Trace :=
  [{ kind := .legendEntry
     legendgroup := some "status:Review"
     hideIfAnyHidden := []
     visible := true
     data := [] },
   { kind := .legendEntry
     legendgroup := some "status:Done"
     hideIfAnyHidden := []
     visible := true
     data := [] }]

def statusNormal (t : Task) : Bool :=
  t.status == STATUS_TODO || t.status == STATUS_INPROGRESS

/-- build is `GanttFigureBuilder.build` of `app/gantt_figure.py`: date
filter, Blocked flags, status split, then base bars, overlays, locks,
dependency connectors and the fixed legend entries, in source order.  This
builder configures the x-axis type and tick format but never sets an
explicit range, so `xrange` is `none` (auto-scale). -/
def build (df : List Task) : Scene :=
  let chart := chartTasks df
  let chartFlags := addBlocked chart
  let normal := chart.filter statusNormal
  let review := chart.filter (fun t => t.status == STATUS_REVIEW)
  let done := chart.filter (fun t => t.status == STATUS_DONE)
  { traces := baseTraces normal ++ reviewTraces review ++ doneTraces done
      ++ overlayTraces normal review done
      ++ lockTraces chartFlags
      ++ depTraces chart
      ++ legendEntryTraces
    xrange := none
    height := max 520 (28 * max chart.length 1 + 260) }

/-! ### Dash callbacks (`app/dash_app.py`) -/

structure TableRow where
  name : Cell
  id : String
  start : Option String
  stop : Option String
  progress : ℚ
  parentId : String
  category : String
  status : String
deriving DecidableEq

/-- formatDateTime is `strftime("%Y-%m-%d %H:%M")`. -/
def formatDateTime (t : Timestamp) : String :=
  ⟨formatDateChars t ++ ' ' ::
    (natChars 2 (t.todNs / 3600000000000) ++ ':' :: natChars 2 (t.todNs / 60000000000 % 60))⟩

/-- mkTableRow / toTableRows model `GanttDashApp._to_table_rows`: every row
of the table is kept, dates rendered as strings (NaT as NaN). -/
def mkTableRow (t : Task) : TableRow :=
  { name := t.name
    id := t.id
    start := t.start.map formatDateTime
    stop := t.stop.map formatDateTime
    progress := t.progress
    parentId := t.parentId
    category := t.category
    status := t.status }

def toTableRows (df : List Task) : List TableRow :=
  df.map mkTableRow

/-- hideMeta is the `meta.get("hide_if_any_hidden")` check of
`update_gantt`: an empty list is falsy and does nothing. -/
def hideMeta (hidden : List String) (tr : Trace) : Trace :=
  if tr.hideIfAnyHidden.any (fun g => hidden.contains g) then { tr with visible := false }
  else tr

/-- lgTruthyHidden is the `lg and lg in hidden` test of `update_gantt`:
the legendgroup is truthy (non-None and non-empty) and hidden. -/
def lgTruthyHidden (hidden : List String) : Option String → Bool
  | some lg => decide (lg ≠ "" ∧ lg ∈ hidden)
  | none => false

/-- markTrace is the per-trace body of the hiding loop in `update_gantt`:
a truthy hidden legendgroup marks the trace `legendonly` and skips the meta
check; otherwise the meta check applies.  `visible := false` stands for
`"legendonly"`. -/
def markTrace (hidden : List String) (tr : Trace) : Trace :=
  if lgTruthyHidden hidden tr.legendgroup then { tr with visible := false }
  else hideMeta hidden tr

/-- applyHidden is the whole hiding pass: every trace is kept, only its
visibility is updated. -/
def applyHidden (hidden : List String) (traces : List Trace) : List Trace :=
  traces.map (markTrace hidden)

/-! ### Export file naming (`export_excel` in `app/dash_app.py`) -/

def joinDots : List (List Char) → List Char
  | [] => []
  | [p] => p
  | p :: rest => p ++ '.' :: joinDots rest

/-- pyPathName is `pathlib.Path(s).name`: the last `/`-separated component. -/
def pyPathName (s : String) : String :=
  match (splitOnChar '/' s.data).getLast? with
  | some comp => ⟨comp⟩
  | none => s

/-- pyPathStem is `pathlib.Path(nm).stem`: the name with its last suffix
removed, where a suffix is a trailing `.xyz` whose dot is neither the first
nor the last character of the name. -/
def pyPathStem (nm : String) : String :=
  let parts := splitOnChar '.' nm.data
  if parts.length ≥ 2 then
    let pre := joinDots parts.dropLast
    let suf := (parts.getLast?).getD []
    if pre ≠ [] ∧ suf ≠ [] then ⟨pre⟩ else nm
  else nm

/-- exportOutName is the output-name computation of `export_excel`.
`dash_app.py` never imports `pathlib.Path`, so the upload branch, which
evaluates `Path(uploaded_filename)`, raises `NameError` at run time; the
model returns it as an error.  A falsy (`None` or empty) uploaded filename
takes the configured-path branch. -/
def exportOutName (repoPath : String) (uploadedFilename : Option String) :
    Except String String :=
  match uploadedFilename with
  | some u =>
      if u ≠ "" then .error "NameError: name Path is not defined"
      else .ok (pyPathStem (pyPathName repoPath) ++ "_updated.xlsx")
  | none => .ok (pyPathStem (pyPathName repoPath) ++ "_updated.xlsx")

/-- exportOutNameIntended is what the same branch computes once `Path` is
importable (the evident intent of the code and the behaviour the spec
describes): upload name preferred, `<stem>_updated.xlsx` either way. -/
def exportOutNameIntended (repoPath : String) (uploadedFilename : Option String) : String :=
  match uploadedFilename with
  | some u =>
      if u ≠ "" then pyPathStem (pyPathName u) ++ "_updated.xlsx"
      else pyPathStem (pyPathName repoPath) ++ "_updated.xlsx"
  | none => pyPathStem (pyPathName repoPath) ++ "_updated.xlsx"

/-! ### The legacy builder's x-axis range (`TaskManagement.py`)

`GanttFigureBuilder.build` in `TaskManagement.py` normalizes dates to
midnight, filters rows with both dates, and, when the chart table is
non-empty, forces the x-axis range to `[min start, max end + 1 day]`
(lines 393-397). -/

def chartTasksTM (df : List Task) : List Task :=
  (df.map (fun t =>
    { t with start := t.start.map dayFloor, stop := t.stop.map dayFloor })).filter
    (fun t => t.start.isSome && t.stop.isSome)

def minNs : List Int → Int
  | [] => 0
  | x :: xs => xs.foldl min x

def maxNs : List Int → Int
  | [] => 0
  | x :: xs => xs.foldl max x

def xrangeTM (df : List Task) : Option (Int × Int) :=
  let chart := chartTasksTM df
  if chart.isEmpty then none
  else some (minNs (chart.map (fun t => tsNs t.start)),
             maxNs (chart.map (fun t => tsNs t.stop)) + nsPerDay)

/-! ### Lemmas about the dependency resolver -/

theorem lookupProgress_eq_none (df : List Task) (k : String) :
    lookupProgress df k = none ↔ k ∉ taskIds df := by
  unfold lookupProgress
  rw [Option.map_eq_none', List.find?_eq_none]
  constructor
  · intro h hmem
    rcases List.mem_map.mp hmem with ⟨t, ht, hid⟩
    exact h t (List.mem_reverse.mpr ht) (by simp [hid])
  · intro h t ht hbeq
    exact h (List.mem_map.mpr ⟨t, List.mem_reverse.mp ht, by simpa using hbeq⟩)

theorem filterMap_ite {α β : Type} (P : α → Prop) [DecidablePred P] (f : α → β) (l : List α) :
    l.filterMap (fun r => if P r then some (f r) else none) =
      (l.filter (fun r => decide (P r))).map f := by
  induction l with
  | nil => rfl
  | cons a as ih =>
      by_cases h : P a
      · simp only [List.filterMap_cons, List.filter_cons, if_pos h, decide_eq_true_eq,
          decide_eq_true h, if_true, List.map_cons, ih]
      · simp only [List.filterMap_cons, List.filter_cons, if_neg h, ih]
        rw [show decide (P a) = false from decide_eq_false h]
        rfl

/-- C1: for every task table and every row in it, the derived Blocked flag is
true iff the row's parentId is non-empty and either does not match any id in
the table (last occurrence winning on duplicates) or the matched parent's
progress is strictly below 100; an empty parentId never blocks, and a parent
at progress exactly 100 unblocks its child. -/
theorem claimC1_blocked_flag (df : List Task) (r : Task) (hr : r ∈ df) :
    ((r, blockedB df r) ∈ addBlocked df) ∧
    (blockedB df r = true ↔
      r.parentId ≠ "" ∧
        (r.parentId ∉ taskIds df ∨ ∃ p, lookupProgress df r.parentId = some p ∧ p < 100)) ∧
    (r.parentId = "" → blockedB df r = false) ∧
    (∀ p, lookupProgress df r.parentId = some p → 100 ≤ p → blockedB df r = false) := by
  refine ⟨List.mem_map.mpr ⟨r, hr, rfl⟩, ?_, ?_, ?_⟩
  · unfold blockedB
    by_cases hpe : r.parentId = ""
    · simp [hpe]
    · rw [if_neg hpe]
      cases hl : lookupProgress df r.parentId with
      | none =>
          simp only [true_iff]
          exact ⟨hpe, Or.inl ((lookupProgress_eq_none df r.parentId).mp hl)⟩
      | some p =>
          have hmem : r.parentId ∈ taskIds df := by
            by_contra hno
            rw [(lookupProgress_eq_none df r.parentId).mpr hno] at hl
            cases hl
          constructor
          · intro hp
            exact ⟨hpe, Or.inr ⟨p, rfl, of_decide_eq_true hp⟩⟩
          · rintro ⟨-, hor⟩
            rcases hor with hno | ⟨p2, hp2, hlt⟩
            · exact absurd hmem hno
            · cases hp2
              exact decide_eq_true hlt
  · intro hpe
    unfold blockedB
    rw [if_pos hpe]
  · intro p hp hge
    unfold blockedB
    by_cases hpe : r.parentId = ""
    · rw [if_pos hpe]
    · rw [if_neg hpe, hp]
      simp only [decide_eq_false_iff_not, not_lt]
      exact hge

def taskX : Task :=
  { name := .na, id := "X", start := none, stop := none, progress := 50,
    parentId := "", category := "c", status := "To Do" }

def taskY : Task :=
  { name := .na, id := "Y", start := none, stop := none, progress := 0,
    parentId := "X", category := "c", status := "To Do" }

def dfW : List Task := [taskX, taskY]

theorem claimC1_blocked_flag_witness :
    ((taskY, blockedB dfW taskY) ∈ addBlocked dfW) ∧ blockedB dfW taskY = true := by
  have h := claimC1_blocked_flag dfW taskY (by decide)
  refine ⟨h.1, ?_⟩
  exact h.2.1.mpr ⟨by decide, Or.inr ⟨50, by decide, by norm_num⟩⟩

/-- C2: the dependency enumeration returns exactly the (parent, child) pairs,
one per row in order, whose stripped parentId is non-empty and occurs among
the table's ids; every returned edge has both endpoints in the id set, and a
row whose stripped parentId equals its own (non-empty) id yields a
self-referential edge that is not filtered out. -/
theorem claimC2_dependency_edges (df : List Task) :
    iterDependencies df =
      (df.filter (fun r =>
        decide (pyStrip r.parentId ≠ "" ∧ pyStrip r.parentId ∈ taskIds df))).map
        (fun r => (pyStrip r.parentId, r.id)) ∧
    (∀ e ∈ iterDependencies df, e.1 ∈ taskIds df ∧ e.2 ∈ taskIds df) ∧
    (∀ r ∈ df, r.id ≠ "" → pyStrip r.parentId = r.id → (r.id, r.id) ∈ iterDependencies df) := by
  have heq : iterDependencies df =
      (df.filter (fun r =>
        decide (pyStrip r.parentId ≠ "" ∧ pyStrip r.parentId ∈ taskIds df))).map
        (fun r => (pyStrip r.parentId, r.id)) :=
    filterMap_ite _ _ df
  refine ⟨heq, ?_, ?_⟩
  · intro e he
    rw [heq] at he
    rcases List.mem_map.mp he with ⟨r, hrf, hre⟩
    rcases List.mem_filter.mp hrf with ⟨hrdf, hpred⟩
    rw [decide_eq_true_eq] at hpred
    constructor
    · rw [← hre]
      exact hpred.2
    · rw [← hre]
      exact List.mem_map.mpr ⟨r, hrdf, rfl⟩
  · intro r hr hid hpar
    unfold iterDependencies
    refine List.mem_filterMap.mpr ⟨r, hr, ?_⟩
    rw [if_pos ⟨by rw [hpar]; exact hid, by rw [hpar]; exact List.mem_map.mpr ⟨r, hr, rfl⟩⟩]
    rw [hpar]

def taskSelf : Task :=
  { name := .na, id := "A", start := none, stop := none, progress := 0,
    parentId := "A", category := "c", status := "To Do" }

theorem claimC2_dependency_edges_witness :
    ("A", "A") ∈ iterDependencies [taskSelf] := by
  exact (claimC2_dependency_edges [taskSelf]).2.2 taskSelf (by decide) (by decide) (by decide)

/-- C3: normalization is idempotent: re-normalizing an already normalized
table yields the same table (same rows, same order). -/
theorem claimC3_normalize_idempotent (rows : List RawRow) :
    normalize (normalize rows) = normalize rows :=
  normalize_idem rows

/-- C4: after every normalization pass, every row's status is one of the
four allowed values (any other value, including blank, having been coerced
to "To Do"), every row's progress is a rational in [0, 100] (non-numeric
coerced to 0, out-of-range clamped), and the rows are sorted by
(start, category, name). -/
theorem claimC4_normal_form (rows : List RawRow) :
    (∀ r ∈ normalize rows,
        (∃ s, r.status = .str s ∧ s ∈ ALLOWED_STATUS) ∧
        (∃ p, r.progress = .num p ∧ 0 ≤ p ∧ p ≤ 100)) ∧
    (∀ c : Cell, pyStrip (cellStr (fillna STATUS_TODO c)) ∉ ALLOWED_STATUS →
        coerceStatus c = .str STATUS_TODO) ∧
    (∀ c : Cell, toNumeric c = none → coerceProgress c = .num 0) ∧
    (∀ c : Cell, ∀ q, toNumeric c = some q → coerceProgress c = .num (clipQ q)) ∧
    List.Pairwise (fun a b => rowLe a b = true) (normalize rows) := by
  refine ⟨?_, ?_, ?_, ?_, List.sorted_mergeSort rowLe_trans rowLe_total _⟩
  · intro r hr
    have hr2 : r ∈ rows.map rowCoerce :=
      ((List.mergeSort_perm _ rowLe).mem_iff).mp hr
    rcases List.mem_map.mp hr2 with ⟨x, _, hx⟩
    constructor
    · rcases coerceStatus_spec x.status with ⟨s, hcs, hmem, -⟩
      exact ⟨s, by rw [← hx]; exact hcs, hmem⟩
    · refine ⟨clipQ ((toNumeric x.progress).getD 0), by rw [← hx]; rfl, ?_, ?_⟩
      · exact (clipQ_bounds _).1
      · exact (clipQ_bounds _).2
  · intro c hno
    simp only [coerceStatus]
    rw [if_neg hno]
  · intro c hnone
    unfold coerceProgress
    rw [hnone]
    rfl
  · intro c q hsome
    unfold coerceProgress
    rw [hsome]
    rfl

def rowW : RawRow :=
  { name := .na
    id := .str " T1 "
    start := .str "2024-01-05"
    stop := .na
    progress := .str "abc"
    parentId := .na
    category := .na
    status := .str "garbage" }

theorem claimC4_normal_form_witness :
    (∃ s, (rowCoerce rowW).status = .str s ∧ s ∈ ALLOWED_STATUS) ∧
    (∃ p, (rowCoerce rowW).progress = .num p ∧ 0 ≤ p ∧ p ≤ 100) := by
  have hmem : rowCoerce rowW ∈ normalize [rowW] := by
    unfold normalize
    exact ((List.mergeSort_perm _ rowLe).mem_iff).mpr (by simp)
  exact (claimC4_normal_form [rowW]).1 (rowCoerce rowW) hmem

/-! ### The save/load round trip (claim C6) -/

/-- cellDateOk: a date cell must hold a timestamp a real pandas `Timestamp`
could hold (the model's `Timestamp` type is wider than pandas'). -/
def cellDateOk (c : Cell) : Bool :=
  match c with
  | .date t => tsValid t
  | _ => true

def rowDatesOk (r : RawRow) : Bool :=
  cellDateOk r.start && cellDateOk r.stop

theorem coerceDate_ok (c : Cell) (hc : cellDateOk c = true) :
    cellDateOk (coerceDate c) = true := by
  unfold coerceDate
  cases hd : toDatetime c with
  | none => rfl
  | some t =>
      show tsValid t = true
      cases c with
      | na => cases hd
      | num q => cases hd
      | date t0 =>
          have ht : t0 = t := by
            have : (some t0 : Option Timestamp) = some t := hd
            cases this
            rfl
          rw [← ht]
          exact hc
      | str s => exact (parseDateChars_valid s.data t hd).1

theorem coerceDate_save (c : Cell) (hc : cellDateOk (coerceDate c) = true) :
    coerceDate (saveDateCell (coerceDate c)) = dayFloorCell (coerceDate c) := by
  cases hd : toDatetime c with
  | none =>
      have h1 : coerceDate c = .na := by unfold coerceDate; rw [hd]
      rw [h1]
      rfl
  | some t =>
      have h1 : coerceDate c = .date t := by unfold coerceDate; rw [hd]
      rw [h1] at hc ⊢
      have hv : tsValid t = true := hc
      show coerceDate (.str (formatDate t)) = .date (dayFloor t)
      unfold coerceDate
      rw [show toDatetime (.str (formatDate t)) = some (dayFloor t) from parseDate_format t hv]

theorem rowCoerce_save (x : RawRow)
    (hs : cellDateOk (coerceDate x.start) = true)
    (he : cellDateOk (coerceDate x.stop) = true) :
    rowCoerce (saveRow (rowCoerce x)) = dayFloorRow (rowCoerce x) := by
  show RawRow.mk
      x.name
      (coerceId (coerceId x.id))
      (coerceDate (saveDateCell (coerceDate x.start)))
      (coerceDate (saveDateCell (coerceDate x.stop)))
      (coerceProgress (coerceProgress x.progress))
      (coerceParent (coerceParent x.parentId))
      (coerceCategory (coerceCategory x.category))
      (coerceStatus (coerceStatus x.status)) =
    RawRow.mk
      x.name
      (coerceId x.id)
      (dayFloorCell (coerceDate x.start))
      (dayFloorCell (coerceDate x.stop))
      (coerceProgress x.progress)
      (coerceParent x.parentId)
      (coerceCategory x.category)
      (coerceStatus x.status)
  rw [coerceId_idem, coerceDate_save x.start hs, coerceDate_save x.stop he,
      coerceProgress_idem, coerceParent_idem, coerceCategory_idem, coerceStatus_idem]

/-- C6: round trip.  For every raw table whose date cells are within pandas'
representable range, exporting the normalized table and re-importing the
written file yields (up to the re-sort's permutation) exactly the normalized
rows with their start/end dates truncated to day precision — so each task's
id, name, category, status, progress (and parent) are preserved exactly, and
the dates to day precision. -/
theorem claimC6_round_trip (rows : List RawRow)
    (h : ∀ r ∈ rows, rowDatesOk r = true) :
    List.Perm (loadTable (saveTable (normalize rows)))
      ((normalize rows).map dayFloorRow) := by
  unfold loadTable saveTable normalize
  have hmapeq :
      List.map rowCoerce (List.map saveRow ((rows.map rowCoerce).mergeSort rowLe)) =
        List.map dayFloorRow ((rows.map rowCoerce).mergeSort rowLe) := by
    rw [List.map_map]
    apply List.map_congr_left
    intro r hrmem
    have hr2 : r ∈ rows.map rowCoerce :=
      ((List.mergeSort_perm _ rowLe).mem_iff).mp hrmem
    rcases List.mem_map.mp hr2 with ⟨x, hxrows, hx⟩
    have hok := h x hxrows
    unfold rowDatesOk at hok
    rw [Bool.and_eq_true] at hok
    have hs : cellDateOk (coerceDate x.start) = true := coerceDate_ok x.start hok.1
    have he : cellDateOk (coerceDate x.stop) = true := coerceDate_ok x.stop hok.2
    show rowCoerce (saveRow r) = dayFloorRow r
    rw [← hx]
    exact rowCoerce_save x hs he
  rw [hmapeq]
  exact List.mergeSort_perm _ rowLe

def rawRT : RawRow :=
  { name := .str "task one"
    id := .str "T1"
    start := .date ⟨2024, 1, 5, 10800000000000⟩
    stop := .str "2024-02-10"
    progress := .num 50
    parentId := .na
    category := .str "Alpha"
    status := .str "Done" }

theorem claimC6_round_trip_witness :
    List.Perm (loadTable (saveTable (normalize [rawRT])))
      ((normalize [rawRT]).map dayFloorRow) :=
  claimC6_round_trip [rawRT] (by decide)

/-! ### Scene decomposition lemmas -/

theorem mem_of_mem_ite_nil {α : Type} {c : Prop} [Decidable c] {l : List α} {x : α}
    (h : x ∈ (if c then [] else l)) : x ∈ l := by
  split at h
  · exact absurd h (List.not_mem_nil x)
  · exact h

theorem build_traces_eq (df : List Task) :
    (build df).traces =
      baseTraces ((chartTasks df).filter statusNormal)
      ++ reviewTraces ((chartTasks df).filter (fun t => t.status == STATUS_REVIEW))
      ++ doneTraces ((chartTasks df).filter (fun t => t.status == STATUS_DONE))
      ++ overlayTraces ((chartTasks df).filter statusNormal)
           ((chartTasks df).filter (fun t => t.status == STATUS_REVIEW))
           ((chartTasks df).filter (fun t => t.status == STATUS_DONE))
      ++ lockTraces (addBlocked (chartTasks df))
      ++ depTraces (chartTasks df)
      ++ legendEntryTraces := rfl

theorem baseTraces_mem {normal : List Task} {tr : Trace} (h : tr ∈ baseTraces normal) :
    ∃ c, tr =
      { kind := .baseBar
        legendgroup := some ("cat:" ++ c)
        hideIfAnyHidden := []
        visible := true
        data := (normal.filter (fun t => t.category == c)).map mkBarDatum } := by
  unfold baseTraces at h
  have h2 := mem_of_mem_ite_nil h
  rcases List.mem_map.mp h2 with ⟨c, _, hc⟩
  exact ⟨c, hc.symm⟩

theorem reviewTraces_mem {review : List Task} {tr : Trace} (h : tr ∈ reviewTraces review) :
    tr =
      { kind := .baseBar
        legendgroup := some "status:Review"
        hideIfAnyHidden := []
        visible := true
        data := review.map mkBarDatum } := by
  unfold reviewTraces at h
  have h2 := mem_of_mem_ite_nil h
  simpa using h2

theorem doneTraces_mem {done : List Task} {tr : Trace} (h : tr ∈ doneTraces done) :
    tr =
      { kind := .baseBar
        legendgroup := some "status:Done"
        hideIfAnyHidden := []
        visible := true
        data := done.map mkBarDatum } := by
  unfold doneTraces at h
  have h2 := mem_of_mem_ite_nil h
  simpa using h2

theorem overlayTrace_mem {grp : String} {subset : List Task} {tr : Trace}
    (h : tr ∈ overlayTrace grp subset) :
    tr =
      { kind := .overlay
        legendgroup := some grp
        hideIfAnyHidden := []
        visible := true
        data := subset.map (fun t => ⟨t.name, tsNs t.start, progressEndNs t⟩) } := by
  unfold overlayTrace at h
  have h2 := mem_of_mem_ite_nil h
  simpa using h2

theorem overlayTraces_mem {normal review done : List Task} {tr : Trace}
    (h : tr ∈ overlayTraces normal review done) :
    (∃ c, tr =
      { kind := .overlay
        legendgroup := some ("cat:" ++ c)
        hideIfAnyHidden := []
        visible := true
        data := (normal.filter (fun t => t.category == c)).map
          (fun t => ⟨t.name, tsNs t.start, progressEndNs t⟩) }) ∨
    tr =
      { kind := .overlay
        legendgroup := some "status:Review"
        hideIfAnyHidden := []
        visible := true
        data := review.map (fun t => ⟨t.name, tsNs t.start, progressEndNs t⟩) } ∨
    tr =
      { kind := .overlay
        legendgroup := some "status:Done"
        hideIfAnyHidden := []
        visible := true
        data := done.map (fun t => ⟨t.name, tsNs t.start, progressEndNs t⟩) } := by
  unfold overlayTraces at h
  rcases List.mem_append.mp h with h1 | h2
  · rcases List.mem_append.mp h1 with h3 | h4
    · have h5 := mem_of_mem_ite_nil h3
      rcases List.mem_flatMap.mp h5 with ⟨c, _, hc⟩
      exact Or.inl ⟨c, overlayTrace_mem hc⟩
    · exact Or.inr (Or.inl (overlayTrace_mem h4))
  · exact Or.inr (Or.inr (overlayTrace_mem h2))

theorem lockTraces_mem {chart : List Task} {tr : Trace}
    (h : tr ∈ lockTraces (addBlocked chart)) :
    ∃ t ∈ chart, blockedB chart t = true ∧ tr =
      { kind := .lock
        legendgroup := some (taskLegendgroup t)
        hideIfAnyHidden := [taskLegendgroup t]
        visible := true
        data := [⟨t.name, tsNs t.start, tsNs t.start⟩] } := by
  unfold lockTraces at h
  rcases List.mem_map.mp h with ⟨p, hp, htr⟩
  rcases List.mem_filter.mp hp with ⟨hpmem, hflag⟩
  unfold addBlocked at hpmem
  rcases List.mem_map.mp hpmem with ⟨t, htmem, hpt⟩
  refine ⟨t, htmem, ?_, ?_⟩
  · rw [← hpt] at hflag
    exact hflag
  · rw [← htr, ← hpt]

theorem lookupTask_mem {chart : List Task} {k : String} {t : Task}
    (h : lookupTask chart k = some t) : t ∈ chart ∧ t.id = k := by
  unfold lookupTask at h
  constructor
  · exact List.mem_reverse.mp (List.mem_of_find?_eq_some h)
  · have := List.find?_some h
    simpa using this

theorem depTraces_mem {chart : List Task} {tr : Trace} (h : tr ∈ depTraces chart) :
    ∃ e ∈ iterDependencies chart, ∃ parent child,
      lookupTask chart e.1 = some parent ∧ lookupTask chart e.2 = some child ∧
      (tr =
        { kind := .depLine
          legendgroup := none
          hideIfAnyHidden := [taskLegendgroup parent, taskLegendgroup child]
          visible := true
          data := [⟨parent.name, tsNs parent.stop, tsNs parent.stop⟩,
                   ⟨child.name, tsNs child.start, tsNs child.start⟩] } ∨
       tr =
        { kind := .depMarker
          legendgroup := none
          hideIfAnyHidden := [taskLegendgroup parent, taskLegendgroup child]
          visible := true
          data := [⟨child.name, tsNs child.start, tsNs child.start⟩] }) := by
  unfold depTraces at h
  rcases List.mem_flatMap.mp h with ⟨e, he, htr⟩
  cases hp : lookupTask chart e.1 <;> rw [hp] at htr
  · cases hq : lookupTask chart e.2 <;> rw [hq] at htr <;>
      exact absurd htr (List.not_mem_nil tr)
  · cases hq : lookupTask chart e.2 <;> rw [hq] at htr
    · exact absurd htr (List.not_mem_nil tr)
    · rcases List.mem_cons.mp htr with h1 | h2
      · exact ⟨e, he, _, _, hp, hq, Or.inl h1⟩
      · rcases List.mem_cons.mp h2 with h3 | h4
        · exact ⟨e, he, _, _, hp, hq, Or.inr h3⟩
        · exact absurd h4 (List.not_mem_nil tr)

theorem legendEntryTraces_mem {tr : Trace} (h : tr ∈ legendEntryTraces) :
    tr =
      { kind := .legendEntry
        legendgroup := some "status:Review"
        hideIfAnyHidden := []
        visible := true
        data := [] } ∨
    tr =
      { kind := .legendEntry
        legendgroup := some "status:Done"
        hideIfAnyHidden := []
        visible := true
        data := [] } := by
  unfold legendEntryTraces at h
  rcases List.mem_cons.mp h with h1 | h2
  · exact Or.inl h1
  · rcases List.mem_cons.mp h2 with h3 | h4
    · exact Or.inr h3
    · exact absurd h4 (List.not_mem_nil tr)

/-- Every data point of every trace of the scene originates from a charted
task (one with both dates parseable). -/
theorem build_datum_provenance (df : List Task) :
    ∀ tr ∈ (build df).traces, ∀ d ∈ tr.data, ∃ t ∈ chartTasks df, d.y = t.name := by
  intro tr htr d hd
  rw [build_traces_eq] at htr
  rcases List.mem_append.mp htr with h6 | hleg
  · rcases List.mem_append.mp h6 with h5 | hdep
    · rcases List.mem_append.mp h5 with h4 | hlock
      · rcases List.mem_append.mp h4 with h3 | hover
        · rcases List.mem_append.mp h3 with h2 | hdone
          · rcases List.mem_append.mp h2 with hbase | hrev
            · rcases baseTraces_mem hbase with ⟨c, hc⟩
              rw [hc] at hd
              rcases List.mem_map.mp hd with ⟨t, htm, hdt⟩
              exact ⟨t, List.mem_of_mem_filter (List.mem_of_mem_filter htm),
                by rw [← hdt]; rfl⟩
            · rw [reviewTraces_mem hrev] at hd
              rcases List.mem_map.mp hd with ⟨t, htm, hdt⟩
              exact ⟨t, List.mem_of_mem_filter htm, by rw [← hdt]; rfl⟩
          · rw [doneTraces_mem hdone] at hd
            rcases List.mem_map.mp hd with ⟨t, htm, hdt⟩
            exact ⟨t, List.mem_of_mem_filter htm, by rw [← hdt]; rfl⟩
        · rcases overlayTraces_mem hover with ⟨c, hc⟩ | hc | hc
          · rw [hc] at hd
            rcases List.mem_map.mp hd with ⟨t, htm, hdt⟩
            exact ⟨t, List.mem_of_mem_filter (List.mem_of_mem_filter htm),
              by rw [← hdt]⟩
          · rw [hc] at hd
            rcases List.mem_map.mp hd with ⟨t, htm, hdt⟩
            exact ⟨t, List.mem_of_mem_filter htm, by rw [← hdt]⟩
          · rw [hc] at hd
            rcases List.mem_map.mp hd with ⟨t, htm, hdt⟩
            exact ⟨t, List.mem_of_mem_filter htm, by rw [← hdt]⟩
      · rcases lockTraces_mem hlock with ⟨t, htm, -, htr2⟩
        rw [htr2] at hd
        rcases List.mem_cons.mp hd with h1 | h2
        · exact ⟨t, htm, by rw [h1]⟩
        · exact absurd h2 (List.not_mem_nil d)
    · rcases depTraces_mem hdep with ⟨e, -, parent, child, hp, hq, hor⟩
      rcases hor with h1 | h1 <;> rw [h1] at hd
      · rcases List.mem_cons.mp hd with h2 | h3
        · exact ⟨parent, (lookupTask_mem hp).1, by rw [h2]⟩
        · rcases List.mem_cons.mp h3 with h4 | h5
          · exact ⟨child, (lookupTask_mem hq).1, by rw [h4]⟩
          · exact absurd h5 (List.not_mem_nil d)
      · rcases List.mem_cons.mp hd with h2 | h3
        · exact ⟨child, (lookupTask_mem hq).1, by rw [h2]⟩
        · exact absurd h3 (List.not_mem_nil d)
  · rcases legendEntryTraces_mem hleg with h1 | h1 <;> rw [h1] at hd <;>
      exact absurd hd (List.not_mem_nil d)

/-! ### Behaviour of the hiding pass -/

theorem hideMeta_cases (hidden : List String) (tr : Trace) :
    hideMeta hidden tr = tr ∨ hideMeta hidden tr = { tr with visible := false } := by
  unfold hideMeta
  split
  · exact Or.inr rfl
  · exact Or.inl rfl

theorem markTrace_cases (hidden : List String) (tr : Trace) :
    markTrace hidden tr = tr ∨ markTrace hidden tr = { tr with visible := false } := by
  unfold markTrace
  split
  · exact Or.inr rfl
  · exact hideMeta_cases hidden tr

theorem markTrace_fields (hidden : List String) (tr : Trace) :
    (markTrace hidden tr).kind = tr.kind ∧
    (markTrace hidden tr).legendgroup = tr.legendgroup ∧
    (markTrace hidden tr).hideIfAnyHidden = tr.hideIfAnyHidden ∧
    (markTrace hidden tr).data = tr.data := by
  rcases markTrace_cases hidden tr with h | h <;> rw [h] <;> exact ⟨rfl, rfl, rfl, rfl⟩

theorem hideMeta_false (hidden : List String) (tr : Trace)
    (hany : tr.hideIfAnyHidden.any (fun g => hidden.contains g) = true) :
    (hideMeta hidden tr).visible = false := by
  unfold hideMeta
  rw [hany]
  rfl

theorem markTrace_lg_hidden (hidden : List String) (tr : Trace) (g : String)
    (hlg : tr.legendgroup = some g) (hne : g ≠ "") (hmem : g ∈ hidden) :
    (markTrace hidden tr).visible = false := by
  unfold markTrace
  rw [hlg]
  rw [show lgTruthyHidden hidden (some g) = true from decide_eq_true ⟨hne, hmem⟩]
  rfl

theorem markTrace_meta_hidden (hidden : List String) (tr : Trace) (g : String)
    (hg : g ∈ tr.hideIfAnyHidden) (hmem : g ∈ hidden) :
    (markTrace hidden tr).visible = false := by
  have hany : tr.hideIfAnyHidden.any (fun x => hidden.contains x) = true := by
    rw [List.any_eq_true]
    exact ⟨g, hg, by simpa using hmem⟩
  unfold markTrace
  split
  · rfl
  · exact hideMeta_false hidden tr hany

theorem markTrace_id (hidden : List String) (tr : Trace)
    (h1 : ∀ g, tr.legendgroup = some g → g ∉ hidden)
    (h2 : ∀ g ∈ tr.hideIfAnyHidden, g ∉ hidden) :
    markTrace hidden tr = tr := by
  have hany : tr.hideIfAnyHidden.any (fun x => hidden.contains x) = false := by
    rw [List.any_eq_false]
    intro g hg
    simpa using h2 g hg
  have hmeta : hideMeta hidden tr = tr := by
    unfold hideMeta
    rw [hany]
    rfl
  have hlg : lgTruthyHidden hidden tr.legendgroup = false := by
    cases hv : tr.legendgroup with
    | none => rfl
    | some g =>
        unfold lgTruthyHidden
        rw [decide_eq_false_iff_not]
        exact fun hc => h1 g hv hc.2
  unfold markTrace
  rw [hlg]
  exact hmeta

/-! ### Claim C5 -/

/-- C5: a task with a null (unparseable) start or end date is excluded from
the chart scene entirely — every data point of every trace (bars, overlays,
locks, connector endpoints) originates from a charted task, and the charted
tasks all have both dates — while the row remains present in the table view
rows. -/
theorem claimC5_null_dates_excluded (df : List Task) (r : Task) (hr : r ∈ df)
    (hnull : r.start = none ∨ r.stop = none) :
    (mkTableRow r ∈ toTableRows df) ∧
    (r ∉ chartTasks df) ∧
    (∀ t ∈ chartTasks df, t.start.isSome = true ∧ t.stop.isSome = true) ∧
    (∀ tr ∈ (build df).traces, ∀ d ∈ tr.data, ∃ t ∈ chartTasks df, d.y = t.name) := by
  refine ⟨List.mem_map.mpr ⟨r, hr, rfl⟩, ?_, ?_, build_datum_provenance df⟩
  · intro hmem
    have hp := (List.mem_filter.mp hmem).2
    rw [Bool.and_eq_true] at hp
    rcases hnull with hn | hn <;> rw [hn] at hp
    · exact absurd hp.1 (by decide)
    · exact absurd hp.2 (by decide)
  · intro t ht
    have hp := (List.mem_filter.mp ht).2
    rw [Bool.and_eq_true] at hp
    exact hp

def taskNoDate : Task :=
  { name := .str "floating", id := "F", start := none, stop := some ⟨2024, 3, 1, 0⟩,
    progress := 10, parentId := "", category := "Alpha", status := "To Do" }

def taskDated : Task :=
  { name := .str "solid", id := "S", start := some ⟨2024, 3, 2, 0⟩,
    stop := some ⟨2024, 3, 4, 0⟩, progress := 40, parentId := "",
    category := "Alpha", status := "To Do" }

def dfC5 : List Task := [taskNoDate, taskDated]

theorem claimC5_null_dates_excluded_witness :
    (mkTableRow taskNoDate ∈ toTableRows dfC5) ∧ taskNoDate ∉ chartTasks dfC5 := by
  have h := claimC5_null_dates_excluded dfC5 taskNoDate (by decide) (Or.inl rfl)
  exact ⟨h.1, h.2.1⟩

/-! ### Legend groups of scene traces are never empty strings -/

theorem cat_ne_empty (c : String) : ("cat:" ++ c) ≠ "" := by
  intro h
  have h2 := congrArg String.data h
  rw [String.data_append] at h2
  have h3 : ('c' :: 'a' :: 't' :: ':' :: []) ++ c.data = ([] : List Char) := h2
  exact List.noConfusion h3

theorem taskLegendgroup_ne_empty (t : Task) : taskLegendgroup t ≠ "" := by
  show (if pyStrip t.status = STATUS_REVIEW then "status:Review"
    else if pyStrip t.status = STATUS_DONE then "status:Done"
    else "cat:" ++ pyStrip t.category) ≠ ""
  split
  · decide
  · split
    · decide
    · exact cat_ne_empty (pyStrip t.category)

theorem build_legendgroup_ne_empty (df : List Task) :
    ∀ tr ∈ (build df).traces, ∀ g, tr.legendgroup = some g → g ≠ "" := by
  intro tr htr g hg
  rw [build_traces_eq] at htr
  rcases List.mem_append.mp htr with h6 | hleg
  · rcases List.mem_append.mp h6 with h5 | hdep
    · rcases List.mem_append.mp h5 with h4 | hlock
      · rcases List.mem_append.mp h4 with h3 | hover
        · rcases List.mem_append.mp h3 with h2 | hdone
          · rcases List.mem_append.mp h2 with hbase | hrev
            · rcases baseTraces_mem hbase with ⟨c, hc⟩
              rw [hc] at hg
              cases hg
              exact cat_ne_empty c
            · rw [reviewTraces_mem hrev] at hg
              cases hg
              decide
          · rw [doneTraces_mem hdone] at hg
            cases hg
            decide
        · rcases overlayTraces_mem hover with ⟨c, hc⟩ | hc | hc <;> rw [hc] at hg <;> cases hg
          · exact cat_ne_empty c
          · decide
          · decide
      · rcases lockTraces_mem hlock with ⟨t, -, -, htr2⟩
        rw [htr2] at hg
        cases hg
        exact taskLegendgroup_ne_empty t
    · rcases depTraces_mem hdep with ⟨e, -, parent, child, -, -, hor⟩
      rcases hor with h1 | h1 <;> rw [h1] at hg <;> cases hg
  · rcases legendEntryTraces_mem hleg with h1 | h1 <;> rw [h1] at hg <;> cases hg <;> decide

theorem build_visible_true (df : List Task) :
    ∀ tr ∈ (build df).traces, tr.visible = true := by
  intro tr htr
  rw [build_traces_eq] at htr
  rcases List.mem_append.mp htr with h6 | hleg
  · rcases List.mem_append.mp h6 with h5 | hdep
    · rcases List.mem_append.mp h5 with h4 | hlock
      · rcases List.mem_append.mp h4 with h3 | hover
        · rcases List.mem_append.mp h3 with h2 | hdone
          · rcases List.mem_append.mp h2 with hbase | hrev
            · rcases baseTraces_mem hbase with ⟨c, hc⟩
              rw [hc]
            · rw [reviewTraces_mem hrev]
          · rw [doneTraces_mem hdone]
        · rcases overlayTraces_mem hover with ⟨c, hc⟩ | hc | hc <;> rw [hc]
      · rcases lockTraces_mem hlock with ⟨t, -, -, htr2⟩
        rw [htr2]
    · rcases depTraces_mem hdep with ⟨e, -, parent, child, -, -, hor⟩
      rcases hor with h1 | h1 <;> rw [h1]
  · rcases legendEntryTraces_mem hleg with h1 | h1 <;> rw [h1]

theorem build_dep_src (df : List Task) {tr : Trace} (htr : tr ∈ (build df).traces)
    (hkind : tr.kind = .depLine ∨ tr.kind = .depMarker) :
    tr ∈ depTraces (chartTasks df) := by
  rw [build_traces_eq] at htr
  rcases List.mem_append.mp htr with h6 | hleg
  · rcases List.mem_append.mp h6 with h5 | hdep
    · rcases List.mem_append.mp h5 with h4 | hlock
      · rcases List.mem_append.mp h4 with h3 | hover
        · rcases List.mem_append.mp h3 with h2 | hdone
          · rcases List.mem_append.mp h2 with hbase | hrev
            · rcases baseTraces_mem hbase with ⟨c, hc⟩
              rw [hc] at hkind
              rcases hkind with h | h <;> cases h
            · rw [reviewTraces_mem hrev] at hkind
              rcases hkind with h | h <;> cases h
          · rw [doneTraces_mem hdone] at hkind
            rcases hkind with h | h <;> cases h
        · rcases overlayTraces_mem hover with ⟨c, hc⟩ | hc | hc <;> rw [hc] at hkind <;>
            rcases hkind with h | h <;> cases h
      · rcases lockTraces_mem hlock with ⟨t, -, -, htr2⟩
        rw [htr2] at hkind
        rcases hkind with h | h <;> cases h
    · exact hdep
  · rcases legendEntryTraces_mem hleg with h1 | h1 <;> rw [h1] at hkind <;>
      rcases hkind with h | h <;> cases h

/-! ### Claim C7 -/

/-- C7: for every scene and every set of hidden legend-group keys, the
hiding pass of `update_gantt` (i) keeps every trace, changing only its
visibility; (ii) marks every dependency connector not-visible whenever
either of its two endpoint groups (carried in its hide metadata) is hidden,
in either order; (iii) marks every base bar, progress overlay, and lock icon
whose legend group is hidden; and (iv) leaves traces of untouched groups
visible. -/
theorem claimC7_legend_hiding (df : List Task) (hidden : List String) :
    (applyHidden hidden ((build df).traces)).length = ((build df).traces).length ∧
    applyHidden hidden ((build df).traces) = ((build df).traces).map (markTrace hidden) ∧
    (∀ tr ∈ (build df).traces,
        (markTrace hidden tr).kind = tr.kind ∧
        (markTrace hidden tr).legendgroup = tr.legendgroup ∧
        (markTrace hidden tr).hideIfAnyHidden = tr.hideIfAnyHidden ∧
        (markTrace hidden tr).data = tr.data) ∧
    (∀ tr ∈ (build df).traces, tr.kind = .depLine ∨ tr.kind = .depMarker →
        ∃ parent ∈ chartTasks df, ∃ child ∈ chartTasks df,
          tr.hideIfAnyHidden = [taskLegendgroup parent, taskLegendgroup child] ∧
          ((taskLegendgroup parent ∈ hidden ∨ taskLegendgroup child ∈ hidden) →
              (markTrace hidden tr).visible = false)) ∧
    (∀ tr ∈ (build df).traces,
        tr.kind = .baseBar ∨ tr.kind = .overlay ∨ tr.kind = .lock →
        ∀ g, tr.legendgroup = some g → g ∈ hidden →
          (markTrace hidden tr).visible = false) ∧
    (∀ tr ∈ (build df).traces,
        (∀ g, tr.legendgroup = some g → g ∉ hidden) →
        (∀ g ∈ tr.hideIfAnyHidden, g ∉ hidden) →
          markTrace hidden tr = tr ∧ tr.visible = true) := by
  refine ⟨List.length_map _ _, rfl, fun tr _ => markTrace_fields hidden tr, ?_, ?_, ?_⟩
  · intro tr htr hkind
    have hdep := build_dep_src df htr hkind
    rcases depTraces_mem hdep with ⟨e, -, parent, child, hp, hq, hor⟩
    refine ⟨parent, (lookupTask_mem hp).1, child, (lookupTask_mem hq).1, ?_, ?_⟩
    · rcases hor with h1 | h1 <;> rw [h1]
    · intro hhid
      have hmeta : tr.hideIfAnyHidden = [taskLegendgroup parent, taskLegendgroup child] := by
        rcases hor with h1 | h1 <;> rw [h1]
      rcases hhid with hh | hh
      · exact markTrace_meta_hidden hidden tr (taskLegendgroup parent)
          (by rw [hmeta]; exact List.mem_cons_self _ _) hh
      · exact markTrace_meta_hidden hidden tr (taskLegendgroup child)
          (by rw [hmeta]; exact List.mem_cons.mpr (Or.inr (List.mem_cons_self _ _))) hh
  · intro tr htr _ g hlg hmem
    exact markTrace_lg_hidden hidden tr g hlg (build_legendgroup_ne_empty df tr htr g hlg) hmem
  · intro tr htr h1 h2
    exact ⟨markTrace_id hidden tr h1 h2, build_visible_true df tr htr⟩

def taskP : Task :=
  { name := .str "parent", id := "P", start := some ⟨2024, 3, 2, 0⟩,
    stop := some ⟨2024, 3, 4, 0⟩, progress := 50, parentId := "",
    category := "Alpha", status := "To Do" }

def taskC : Task :=
  { name := .str "child", id := "C", start := some ⟨2024, 3, 5, 0⟩,
    stop := some ⟨2024, 3, 6, 0⟩, progress := 0, parentId := "P",
    category := "Alpha", status := "To Do" }

def dfC7 : List Task := [taskP, taskC]

def lockTrC : Trace :=
  { kind := .lock
    legendgroup := some (taskLegendgroup taskC)
    hideIfAnyHidden := [taskLegendgroup taskC]
    visible := true
    data := [⟨taskC.name, tsNs taskC.start, tsNs taskC.start⟩] }

theorem claimC7_legend_hiding_witness :
    (markTrace ["cat:Alpha"] lockTrC).visible = false := by
  have hmem : lockTrC ∈ (build dfC7).traces := by
    rw [build_traces_eq]
    refine List.mem_append.mpr (Or.inl ?_)
    refine List.mem_append.mpr (Or.inl ?_)
    refine List.mem_append.mpr (Or.inr ?_)
    decide
  exact (claimC7_legend_hiding dfC7 ["cat:Alpha"]).2.2.2.2.1 lockTrC hmem
    (Or.inr (Or.inr rfl)) "cat:Alpha" (by decide) (by decide)

/-! ### Folded minima and maxima (for the x-axis range) -/

theorem foldl_min_le_init (l : List Int) : ∀ a : Int, l.foldl min a ≤ a := by
  induction l with
  | nil => intro a; exact le_refl a
  | cons x xs ih => intro a; exact le_trans (ih (min a x)) (min_le_left a x)

theorem foldl_min_le_mem (l : List Int) : ∀ (a x : Int), x ∈ l → l.foldl min a ≤ x := by
  induction l with
  | nil => intro a x hx; exact absurd hx (List.not_mem_nil x)
  | cons y ys ih =>
      intro a x hx
      rcases List.mem_cons.mp hx with h | h
      · subst h
        exact le_trans (foldl_min_le_init ys (min a x)) (min_le_right a x)
      · exact ih (min a y) x h

theorem foldl_min_attained (l : List Int) : ∀ a : Int, l.foldl min a = a ∨ l.foldl min a ∈ l := by
  induction l with
  | nil => intro a; exact Or.inl rfl
  | cons y ys ih =>
      intro a
      rcases ih (min a y) with h | h
      · rcases min_choice a y with hm | hm
        · exact Or.inl (by show List.foldl min (min a y) ys = a; rw [h, hm])
        · refine Or.inr (List.mem_cons.mpr (Or.inl ?_))
          show List.foldl min (min a y) ys = y
          rw [h, hm]
      · exact Or.inr (List.mem_cons.mpr (Or.inr h))

theorem foldl_max_ge_init (l : List Int) : ∀ a : Int, a ≤ l.foldl max a := by
  induction l with
  | nil => intro a; exact le_refl a
  | cons x xs ih => intro a; exact le_trans (le_max_left a x) (ih (max a x))

theorem foldl_max_ge_mem (l : List Int) : ∀ (a x : Int), x ∈ l → x ≤ l.foldl max a := by
  induction l with
  | nil => intro a x hx; exact absurd hx (List.not_mem_nil x)
  | cons y ys ih =>
      intro a x hx
      rcases List.mem_cons.mp hx with h | h
      · subst h
        exact le_trans (le_max_right a x) (foldl_max_ge_init ys (max a x))
      · exact ih (max a y) x h

theorem foldl_max_attained (l : List Int) : ∀ a : Int, l.foldl max a = a ∨ l.foldl max a ∈ l := by
  induction l with
  | nil => intro a; exact Or.inl rfl
  | cons y ys ih =>
      intro a
      rcases ih (max a y) with h | h
      · rcases max_choice a y with hm | hm
        · exact Or.inl (by show List.foldl max (max a y) ys = a; rw [h, hm])
        · refine Or.inr (List.mem_cons.mpr (Or.inl ?_))
          show List.foldl max (max a y) ys = y
          rw [h, hm]
      · exact Or.inr (List.mem_cons.mpr (Or.inr h))

theorem minNs_le (l : List Int) (x : Int) (hx : x ∈ l) : minNs l ≤ x := by
  cases l with
  | nil => exact absurd hx (List.not_mem_nil x)
  | cons y ys =>
      rcases List.mem_cons.mp hx with h | h
      · subst h
        exact foldl_min_le_init ys x
      · exact foldl_min_le_mem ys y x h

theorem minNs_attained (l : List Int) (hl : l ≠ []) : minNs l ∈ l := by
  cases l with
  | nil => exact absurd rfl hl
  | cons y ys =>
      rcases foldl_min_attained ys y with h | h
      · exact List.mem_cons.mpr (Or.inl h)
      · exact List.mem_cons.mpr (Or.inr h)

theorem maxNs_ge (l : List Int) (x : Int) (hx : x ∈ l) : x ≤ maxNs l := by
  cases l with
  | nil => exact absurd hx (List.not_mem_nil x)
  | cons y ys =>
      rcases List.mem_cons.mp hx with h | h
      · subst h
        exact foldl_max_ge_init ys x
      · exact foldl_max_ge_mem ys y x h

theorem maxNs_attained (l : List Int) (hl : l ≠ []) : maxNs l ∈ l := by
  cases l with
  | nil => exact absurd rfl hl
  | cons y ys =>
      rcases foldl_max_attained ys y with h | h
      · exact List.mem_cons.mpr (Or.inl h)
      · exact List.mem_cons.mpr (Or.inr h)

/-! ### Claim C8 (corrected) -/

/-- C8 counterexample: the claim as stated fails on the active modular
builder (`app/gantt_figure.py`): for a table with a non-empty chart, the
built scene's x-axis range is left to auto-scale (`none`), not forced. -/
theorem claimC8_counterexample :
    chartTasks dfC7 ≠ [] ∧ (build dfC7).xrange = none :=
  ⟨by decide, rfl⟩

/-- C8 (amended): the modular builder (`app/gantt_figure.py`) leaves the
x-axis range to auto-scale; it is the legacy builder (`TaskManagement.py`,
lines 393-397) that, for every non-empty chart table, forces the range to
[minimum start, maximum end + 1 day]. -/
theorem claimC8_xrange_forced (df : List Task) (hne : chartTasksTM df ≠ []) :
    (build df).xrange = none ∧
    ∃ x0 x1, xrangeTM df = some (x0, x1 + nsPerDay) ∧
      (∀ t ∈ chartTasksTM df, x0 ≤ tsNs t.start ∧ tsNs t.stop ≤ x1) ∧
      (∃ t ∈ chartTasksTM df, tsNs t.start = x0) ∧
      (∃ t ∈ chartTasksTM df, tsNs t.stop = x1) := by
  have hie : (chartTasksTM df).isEmpty = false := by
    cases h : chartTasksTM df with
    | nil => exact absurd h hne
    | cons a l => rfl
  have hx : xrangeTM df =
      some (minNs ((chartTasksTM df).map (fun t => tsNs t.start)),
            maxNs ((chartTasksTM df).map (fun t => tsNs t.stop)) + nsPerDay) := by
    simp only [xrangeTM]
    rw [hie]
    rfl
  refine ⟨rfl, minNs ((chartTasksTM df).map (fun t => tsNs t.start)),
      maxNs ((chartTasksTM df).map (fun t => tsNs t.stop)), hx, ?_, ?_, ?_⟩
  · intro t ht
    constructor
    · exact minNs_le _ _ (List.mem_map.mpr ⟨t, ht, rfl⟩)
    · exact maxNs_ge _ _ (List.mem_map.mpr ⟨t, ht, rfl⟩)
  · have hmem := minNs_attained ((chartTasksTM df).map (fun t => tsNs t.start))
      (by intro h; exact hne (List.map_eq_nil_iff.mp h))
    rcases List.mem_map.mp hmem with ⟨t, ht, hts⟩
    exact ⟨t, ht, hts⟩
  · have hmem := maxNs_attained ((chartTasksTM df).map (fun t => tsNs t.stop))
      (by intro h; exact hne (List.map_eq_nil_iff.mp h))
    rcases List.mem_map.mp hmem with ⟨t, ht, hts⟩
    exact ⟨t, ht, hts⟩

theorem claimC8_xrange_forced_witness :
    (build dfC7).xrange = none ∧
    ∃ x0 x1, xrangeTM dfC7 = some (x0, x1 + nsPerDay) ∧
      (∀ t ∈ chartTasksTM dfC7, x0 ≤ tsNs t.start ∧ tsNs t.stop ≤ x1) ∧
      (∃ t ∈ chartTasksTM dfC7, tsNs t.start = x0) ∧
      (∃ t ∈ chartTasksTM dfC7, tsNs t.stop = x1) :=
  claimC8_xrange_forced dfC7 (by decide)

/-! ### Claim C9 (code bug: missing `Path` import) -/

/-- C9: the export callback's file naming.  Without an upload the output
name is the configured input file's stem with `_updated` appended and the
fixed `.xlsx` extension.  With an upload the code is meant to derive the
name from the uploaded file's base name (as `exportOutNameIntended` shows),
but `dash_app.py` never imports `pathlib.Path`, so that branch raises
`NameError` instead of exporting. -/
theorem claimC9_export_name_bug :
    exportOutName "gantt_sample.xlsx" (some "plan.xlsx") =
      .error "NameError: name Path is not defined" ∧
    exportOutName "gantt_sample.xlsx" none = .ok "gantt_sample_updated.xlsx" ∧
    exportOutNameIntended "gantt_sample.xlsx" (some "data/plan.xlsx") = "plan_updated.xlsx" ∧
    exportOutNameIntended "gantt_sample.xlsx" none = "gantt_sample_updated.xlsx" := by
  exact ⟨rfl, rfl, by decide, by decide⟩

/-! ### Claim C10 -/

/-- C10: blocked flags and dependency edges for the chart are computed over
the date-filtered subtable only.  A charted child whose parentId names a
task present in the full table but absent from the chart (unparseable date,
id not carried by any charted row) is marked blocked on the chart — with a
lock trace in the scene — and no dependency edge involves the missing
parent's id or the child's id, exactly as if the parent did not exist. -/
theorem claimC10_chart_scoped_blocking (df : List Task) (parentRow child : Task)
    (hpmem : parentRow ∈ df)
    (hpnull : parentRow.start = none ∨ parentRow.stop = none)
    (hcmem : child ∈ chartTasks df)
    (hcp : child.parentId = parentRow.id)
    (hpne : parentRow.id ≠ "")
    (hpstrip : pyStrip parentRow.id = parentRow.id)
    (hno : parentRow.id ∉ taskIds (chartTasks df))
    (huniq : ∀ t ∈ chartTasks df, t.id = child.id → t.parentId = child.parentId) :
    blockedB (chartTasks df) child = true ∧
    ((child, true) ∈ addBlocked (chartTasks df)) ∧
    (∃ tr ∈ (build df).traces, tr.kind = .lock ∧
        tr.legendgroup = some (taskLegendgroup child) ∧
        tr.data = [⟨child.name, tsNs child.start, tsNs child.start⟩]) ∧
    (∀ e ∈ iterDependencies (chartTasks df), e.1 ≠ parentRow.id ∧ e.2 ≠ child.id) ∧
    (∀ tr ∈ (build df).traces, tr.kind = .depLine ∨ tr.kind = .depMarker →
        tr ∈ depTraces (chartTasks df)) := by
  have hb : blockedB (chartTasks df) child = true := by
    unfold blockedB
    rw [if_neg (by rw [hcp]; exact hpne)]
    rw [hcp, (lookupProgress_eq_none _ _).mpr hno]
  have hpair : (child, true) ∈ addBlocked (chartTasks df) := by
    unfold addBlocked
    exact List.mem_map.mpr ⟨child, hcmem, by rw [hb]⟩
  refine ⟨hb, hpair, ?_, ?_, fun tr htr hkind => build_dep_src df htr hkind⟩
  · refine ⟨{ kind := .lock
              legendgroup := some (taskLegendgroup child)
              hideIfAnyHidden := [taskLegendgroup child]
              visible := true
              data := [⟨child.name, tsNs child.start, tsNs child.start⟩] }, ?_, rfl, rfl, rfl⟩
    rw [build_traces_eq]
    refine List.mem_append.mpr (Or.inl ?_)
    refine List.mem_append.mpr (Or.inl ?_)
    refine List.mem_append.mpr (Or.inr ?_)
    unfold lockTraces
    refine List.mem_map.mpr ⟨(child, true), ?_, rfl⟩
    exact List.mem_filter.mpr ⟨hpair, rfl⟩
  · intro e he
    unfold iterDependencies at he
    rcases List.mem_filterMap.mp he with ⟨r, hrmem, hre⟩
    by_cases hpred : pyStrip r.parentId ≠ "" ∧ pyStrip r.parentId ∈ taskIds (chartTasks df)
    · rw [if_pos hpred] at hre
      cases hre
      constructor
      · intro h1
        have h1' : pyStrip r.parentId = parentRow.id := h1
        rw [h1'] at hpred
        exact hno hpred.2
      · intro h2
        have h2' : r.id = child.id := h2
        have hpar : r.parentId = child.parentId := huniq r hrmem h2'
        rw [hpar, hcp, hpstrip] at hpred
        exact hno hpred.2
    · rw [if_neg hpred] at hre
      cases hre

def parentND : Task :=
  { name := .str "ghost", id := "P", start := none, stop := some ⟨2024, 3, 1, 0⟩,
    progress := 100, parentId := "", category := "Alpha", status := "Done" }

def childD : Task :=
  { name := .str "kid", id := "C", start := some ⟨2024, 3, 5, 0⟩,
    stop := some ⟨2024, 3, 6, 0⟩, progress := 0, parentId := "P",
    category := "Alpha", status := "To Do" }

def dfC10 : List Task := [parentND, childD]

theorem claimC10_chart_scoped_blocking_witness :
    blockedB (chartTasks dfC10) childD = true ∧
    (∀ e ∈ iterDependencies (chartTasks dfC10), e.1 ≠ parentND.id ∧ e.2 ≠ childD.id) := by
  have h := claimC10_chart_scoped_blocking dfC10 parentND childD (by decide) (Or.inl rfl)
    (by decide) rfl (by decide) (by decide) (by decide) (by decide)
  exact ⟨h.1, h.2.2.2.1⟩

end TaskMgmt
